import Mathlib

/-!
# Operon: evaluators and the nonlinear least-squares optimizer

A shallow embedding of `include/operon/nnls/nnls.hpp`,
`include/operon/operators/evaluator.hpp`, `source/operators/evaluator.cpp` and of the
part of `cli/source/operon_nsgp.cpp` that validates the configuration and reports the
best individual.

* C++ objects become structures, methods become functions that return the
  updated object next to the result.
* `float`/`double` values are `Scalar`: a rational, one of the two infinities, or
  NaN. Arithmetic on finite values is exact (no rounding, no signed zero).
* `unsigned long`/`size_t` values are naturals reduced modulo `2^64`, `int` values
  are integers.
* Code outside these files (the expression interpreter, the three solver
  libraries, the tree) is a field of `Collaborators` or a definition marked as
  modelled.
-/

namespace Operon

/-! ## Scalars -/

/-- A floating-point value: finite, `+inf`, `-inf` or NaN. -/
inductive Scalar where
  | finite (q : ℚ)
  | posInf
  | negInf
  | nan
  deriving DecidableEq

namespace Scalar

/-- Embedding of `std::isfinite`. -/
def isfinite : Scalar → Bool
  | finite _ => true
  | _ => false

/-- Conversion of an unsigned integer to a floating-point value. -/
def ofNat (n : Nat) : Scalar := finite (n : ℚ)

def neg : Scalar → Scalar
  | finite q => finite (-q)
  | posInf => negInf
  | negInf => posInf
  | nan => nan

def add : Scalar → Scalar → Scalar
  | finite a, finite b => finite (a + b)
  | nan, _ => nan
  | _, nan => nan
  | posInf, negInf => nan
  | negInf, posInf => nan
  | posInf, _ => posInf
  | negInf, _ => negInf
  | _, posInf => posInf
  | _, negInf => negInf

def sub (a b : Scalar) : Scalar := add a (neg b)

/-- The infinity with the sign of `s * q` for an infinity of sign `s` (`true` is
positive) and a finite factor `q`; NaN when `q = 0`. -/
def infTimes (s : Bool) (q : ℚ) : Scalar :=
  if q = 0 then nan
  else if (0 < q) = s then posInf else negInf

def mul : Scalar → Scalar → Scalar
  | finite a, finite b => finite (a * b)
  | nan, _ => nan
  | _, nan => nan
  | posInf, finite b => infTimes true b
  | negInf, finite b => infTimes false b
  | finite a, posInf => infTimes true a
  | finite a, negInf => infTimes false a
  | posInf, posInf => posInf
  | negInf, negInf => posInf
  | posInf, negInf => negInf
  | negInf, posInf => negInf

def div : Scalar → Scalar → Scalar
  | finite a, finite b =>
    if b = 0 then
      (if a = 0 then nan else if 0 < a then posInf else negInf)
    else finite (a / b)
  | nan, _ => nan
  | _, nan => nan
  | finite _, posInf => finite 0
  | finite _, negInf => finite 0
  | posInf, finite b => if 0 ≤ b then posInf else negInf
  | negInf, finite b => if 0 ≤ b then negInf else posInf
  | posInf, posInf => nan
  | posInf, negInf => nan
  | negInf, posInf => nan
  | negInf, negInf => nan

/-- Embedding of `a > b` on floating-point values: false when either is NaN. -/
def gt : Scalar → Scalar → Bool
  | finite a, finite b => decide (b < a)
  | nan, _ => false
  | _, nan => false
  | posInf, posInf => false
  | posInf, _ => true
  | negInf, _ => false
  | finite _, posInf => false
  | finite _, negInf => true

end Scalar

/-! ## Machine integers -/

/-- Number of values of an `unsigned long` / `size_t` (LP64). -/
def ULONG_MOD : Nat := 2 ^ 64

/-- Reduction of a natural to the range of `unsigned long`. -/
def wrapULong (n : Nat) : Nat := n % ULONG_MOD

/-- Conversion of an `int` to `unsigned long`. -/
def intToULong (i : Int) : Nat := (i % (ULONG_MOD : Int)).toNat

/-- Embedding of `static_cast<int>` applied to an unsigned 64-bit value. -/
def castInt (n : Nat) : Int :=
  let m : Nat := n % 2 ^ 32
  if m < 2 ^ 31 then (m : Int) else (m : Int) - 2 ^ 32

/-- Embedding of `counter += value` for an `unsigned long` counter and an `int`
value. -/
def addIntToULong (counter : Nat) (value : Int) : Nat :=
  wrapULong (counter + intToULong value)

/-! ## Trees, ranges -/

/-- A node of an expression tree, reduced to its calculated hash value. -/
structure Node where
  CalculatedHashValue : Nat
  deriving DecidableEq

/-- Modelled from the spec: the `Tree` class (its header is not part of the
sources at hand) is "an ordered sequence of nodes" that "exposes/sets the tree's
free numeric coefficients as a flat vector". -/
structure Tree where
  Nodes : List Node
  Coefficients : List Scalar
  deriving DecidableEq

/-- Modelled from the spec: `GetCoefficients(tree) -> sequence<scalar>` returns a
copy of the coefficient vector. -/
def Tree.GetCoefficients (t : Tree) : List Scalar := t.Coefficients

/-- Modelled from the spec: `SetCoefficients(tree, sequence<scalar>)` overwrites
the coefficient vector. -/
def Tree.SetCoefficients (t : Tree) (c : List Scalar) : Tree :=
  { t with Coefficients := c }

/-- Modelled from the spec: `Length()` is the number of nodes. -/
def Tree.Length (t : Tree) : Nat := t.Nodes.length

/-- Modelled from the spec: a row range `[Start, End)` (the `Range` class is not
part of the sources at hand). -/
structure Range where
  Start : Nat
  End : Nat
  deriving DecidableEq

def Range.Size (r : Range) : Nat := r.End - r.Start

/-- Embedding of `Operon::Span<Operon::Scalar const>` (declared outside these files),
a pointer and a size: `data` is the sequence of scalars stored from `data()` to the
end of the array that the span views, `size` the number of them that are the elements
of the span. -/
structure Span where
  data : List Scalar
  size : Nat
  deriving DecidableEq

/-- The elements of the span. -/
def Span.elements (s : Span) : List Scalar := s.data.take s.size

/-- The span of a whole array. -/
def Span.ofList (xs : List Scalar) : Span := { data := xs, size := xs.length }

/-- Embedding of `span.subspan(offset, count)`: the rows after the `count` elements
stay in the array that the new span views. -/
def Span.subspan (s : Span) (offset count : Nat) : Span :=
  { data := s.data.drop offset, size := count }

/-! ## Optimizer summary (nnls.hpp) -/

structure OptimizerSummary where
  InitialCost : Scalar
  FinalCost : Scalar
  Iterations : Int
  FunctionEvaluations : Int
  JacobianEvaluations : Int
  Success : Bool
  deriving DecidableEq

/-- Embedding of `OptimizerSummary sum {}` (value-initialisation: every member
zero). -/
def OptimizerSummary.zero : OptimizerSummary :=
  { InitialCost := Scalar.finite 0, FinalCost := Scalar.finite 0, Iterations := 0,
    FunctionEvaluations := 0, JacobianEvaluations := 0, Success := false }

inductive OptimizerType where
  | TINY
  | EIGEN
  | CERES
  deriving DecidableEq

/-! ## The solver libraries -/

/-- The members of `ceres::TinySolver::Summary` read by the optimizer. -/
structure TinySummary where
  initial_cost : Scalar
  final_cost : Scalar
  iterations : Int
  deriving DecidableEq

/-- Enumeration `Eigen::ComputationInfo`; `Success` is its zero enumerator, so
`Eigen::ComputationInfo info{}` is `Success`. -/
inductive ComputationInfo where
  | Success
  | NumericalIssue
  | NoConvergence
  | InvalidInput
  deriving DecidableEq

/-- What `lm.iterations()`, `lm.nfev()` and `lm.njev()` return, after the cast to
`int`. -/
structure LMCounters where
  iterations : Int
  nfev : Int
  njev : Int
  deriving DecidableEq

/-- State of the Levenberg-Marquardt object after `lm.minimize(x0)`. -/
structure LMResult where
  x : List Scalar
  info : ComputationInfo
  counters : LMCounters
  deriving DecidableEq

/-- The members of `ceres::Solver::Summary` read by the optimizer. -/
structure CeresSummary where
  initial_cost : Scalar
  final_cost : Scalar
  iterations_size : Int
  num_residual_evaluations : Int
  num_jacobian_evaluations : Int
  deriving DecidableEq

/-- Code this development takes as given: the expression interpreter and the
three solvers, each for a fixed interpreter and dataset.

* `Evaluate tree range buf` is the content of the buffer after
  `Interpreter::Evaluate(tree, dataset, range, buf)`.
* `tinyDefault` is the summary of a `ceres::TinySolver` that has not solved;
  `tinySolve tree target range maxIterations x0` is `solver.Solve(cf, &params)`:
  the parameters and the summary afterwards.
* `lmDefault` holds the counters of a Levenberg-Marquardt object that has not
  minimised; `lmMinimize tree target range maxfev callCount x0` is
  `lm.minimize(x0)`.
* `ceresSolve tree target range maxIterations x0` is `Solve(options, &problem,
  &summary)`: the parameter block and the summary afterwards.
* `HAVE_CERES` is the build switch of the same name.
* `toScalar` is `static_cast<Operon::Scalar>` applied to a `double`, `ScalarMax`
  is `std::numeric_limits<Operon::Scalar>::max()`. -/
structure Collaborators where
  Evaluate : Tree → Range → List Scalar → List Scalar
  tinyDefault : TinySummary
  tinySolve : Tree → Span → Range → Int → List Scalar → List Scalar × TinySummary
  lmDefault : LMCounters
  lmMinimize : Tree → Span → Range → Int → Int → List Scalar → LMResult
  ceresSolve : Tree → Span → Range → Int → List Scalar → List Scalar × CeresSummary
  HAVE_CERES : Bool
  toScalar : Scalar → Scalar
  ScalarMax : ℚ

/-! ## The optimizers (nnls.hpp) -/

/-- Embedding of `NonlinearLeastSquaresOptimizer<OptimizerType::TINY>::Optimize`:
the tree after the call and the summary. -/
def OptimizeTiny (w : Collaborators) (tree : Tree) (target : Span) (range : Range)
    (iterations : Nat) (writeCoefficients : Bool) : Tree × OptimizerSummary :=
  let max_num_iterations := castInt iterations
  let x0 := tree.GetCoefficients
  let solved : Tree × TinySummary :=
    if x0.isEmpty then (tree, w.tinyDefault)
    else
      let r := w.tinySolve tree target range max_num_iterations x0
      let params := r.1
      let tree1 :=
        if writeCoefficients then tree.SetCoefficients (params.take x0.length) else tree
      (tree1, r.2)
  let summary := solved.2
  let sum := OptimizerSummary.zero
  let sum := { sum with InitialCost := summary.initial_cost }
  let sum := { sum with FinalCost := summary.final_cost }
  let sum := { sum with Iterations := summary.iterations }
  let sum := { sum with FunctionEvaluations := summary.iterations }
  let sum := { sum with Success := Scalar.gt sum.InitialCost sum.FinalCost }
  (solved.1, sum)

/-- Embedding of `NonlinearLeastSquaresOptimizer<OptimizerType::EIGEN>::Optimize`
(the writes to `std::cout` are left out). -/
def OptimizeEigen (w : Collaborators) (tree : Tree) (target : Span) (range : Range)
    (iterations : Nat) (callCount : Int) (writeCoefficients : Bool) :
    Tree × OptimizerSummary :=
  let maxfev := castInt (wrapULong (iterations + 1))
  let coeff := tree.GetCoefficients
  let info0 : ComputationInfo := ComputationInfo.Success
  let solved : Tree × ComputationInfo × LMCounters :=
    if coeff.isEmpty then (tree, info0, w.lmDefault)
    else
      let r := w.lmMinimize tree target range maxfev callCount coeff
      let x0 := r.x
      let info := r.info
      let tree1 := if writeCoefficients then tree.SetCoefficients x0 else tree
      (tree1, info, r.counters)
  let info := solved.2.1
  let lm := solved.2.2
  let sum := OptimizerSummary.zero
  let sum := { sum with InitialCost := Scalar.finite (-1) }
  let sum := { sum with FinalCost := Scalar.finite (-1) }
  let sum := { sum with Iterations := lm.iterations }
  let sum := { sum with FunctionEvaluations := lm.nfev }
  let sum := { sum with JacobianEvaluations := lm.njev }
  let sum := { sum with Success := decide (info = ComputationInfo.Success) }
  (solved.1, sum)

/-- Embedding of `std::copy(params.data(), params.data() + params.size(),
coef.begin())`. -/
def copyInto (params coef : List Scalar) : List Scalar :=
  params ++ coef.drop params.length

/-- Embedding of `NonlinearLeastSquaresOptimizer<OptimizerType::CERES>::Optimize`
(the `report` printing is left out). -/
def OptimizeCeres (w : Collaborators) (tree : Tree) (target : Span) (range : Range)
    (iterations : Nat) (writeCoefficients : Bool) : Tree × OptimizerSummary :=
  let coef := tree.GetCoefficients
  if coef.isEmpty then (tree, OptimizerSummary.zero)
  else
    let max_num_iterations := castInt (wrapULong (iterations + (ULONG_MOD - 1)))
    let r := w.ceresSolve tree target range max_num_iterations coef
    let params := r.1
    let summary := r.2
    let tree1 :=
      if writeCoefficients then tree.SetCoefficients (copyInto params coef) else tree
    let sum := OptimizerSummary.zero
    let sum := { sum with InitialCost := summary.initial_cost }
    let sum := { sum with FinalCost := summary.final_cost }
    let sum := { sum with Iterations := summary.iterations_size }
    let sum := { sum with FunctionEvaluations := summary.num_residual_evaluations }
    let sum := { sum with JacobianEvaluations := summary.num_jacobian_evaluations }
    let sum := { sum with Success := Scalar.gt sum.InitialCost sum.FinalCost }
    (tree1, sum)

/-- One `Optimize` call of the chosen backend. `callCount` is the extra argument
of the EIGEN backend and is not used by the other two. -/
def Optimize (b : OptimizerType) (w : Collaborators) (tree : Tree) (target : Span)
    (range : Range) (iterations : Nat) (callCount : Int) (writeCoefficients : Bool) :
    Tree × OptimizerSummary :=
  match b with
  | OptimizerType.TINY => OptimizeTiny w tree target range iterations writeCoefficients
  | OptimizerType.EIGEN =>
    OptimizeEigen w tree target range iterations callCount writeCoefficients
  | OptimizerType.CERES => OptimizeCeres w tree target range iterations writeCoefficients

/-! ## Least-squares fit (evaluator.cpp) -/

/-- Sum of a sequence of scalars. -/
def sumScalars (xs : List Scalar) : Scalar :=
  xs.foldr Scalar.add (Scalar.finite 0)

/-- Row-aligned pairs `(x[i], y[i])` for `i < x.size()`: `x` holds the `x.size()`
scalars read through the first pointer, `y` the scalars stored from the second pointer
to the end of its array. A read past the end of that array is not defined by the
language and is given the value NaN. -/
def pairRows : List Scalar → List Scalar → List (Scalar × Scalar)
  | [], _ => []
  | x :: xs, [] => (x, Scalar.nan) :: pairRows xs []
  | x :: xs, y :: ys => (x, y) :: pairRows xs ys

/-- The members of `vstat::bivariate_statistics` read by the fit. -/
structure BivariateStatistics where
  mean_x : Scalar
  mean_y : Scalar
  variance_x : Scalar
  covariance : Scalar
  deriving DecidableEq

/-- The statistics returned by `vstat::bivariate::accumulate(x, y, n)` with
`n = x.size()`, over the rows `(x[i], y[i])` for `i < n` (vstat is a library outside
this repository; its results are given by their definitions: means, population
variance of `x`, population covariance). -/
def bivariateAccumulate (x y : List Scalar) : BivariateStatistics :=
  let rows := pairRows x y
  let n := Scalar.ofNat x.length
  let mean_x := Scalar.div (sumScalars (rows.map Prod.fst)) n
  let mean_y := Scalar.div (sumScalars (rows.map Prod.snd)) n
  let dx := fun (r : Scalar × Scalar) => Scalar.sub r.1 mean_x
  let dy := fun (r : Scalar × Scalar) => Scalar.sub r.2 mean_y
  { mean_x := mean_x
    mean_y := mean_y
    variance_x := Scalar.div (sumScalars (rows.map fun r => Scalar.mul (dx r) (dx r))) n
    covariance := Scalar.div (sumScalars (rows.map fun r => Scalar.mul (dx r) (dy r))) n }

/-- Embedding of `FitLeastSquaresImpl`: the pair `(a, b)` of scale and offset.
`estimated` holds the elements of the span `estimated`; of the span `target` the
function reads `estimated.size()` scalars from `target.data()` on, whatever
`target.size()` is. -/
def FitLeastSquaresImpl (estimated : List Scalar) (target : Span) : Scalar × Scalar :=
  let stats := bivariateAccumulate estimated target.data
  let a := Scalar.div stats.covariance stats.variance_x
  let a := if !a.isfinite then Scalar.finite 1 else a
  let b := Scalar.sub stats.mean_y (Scalar.mul a stats.mean_x)
  (a, b)

/-- Embedding of `FitLeastSquares` (both overloads forward to the implementation). -/
def FitLeastSquares (estimated : List Scalar) (target : Span) : Scalar × Scalar :=
  FitLeastSquaresImpl estimated target

/-! ## Evaluators (evaluator.hpp, evaluator.cpp) -/

/-- State of a random generator (no evaluator of these files draws from it). -/
abbrev RandomGenerator := Nat

/-- An individual: its genotype and its fitness vector. -/
structure Individual where
  Genotype : Tree
  Fitness : List Scalar
  deriving DecidableEq

/-- The part of `Problem` read by the evaluators: the column
`dataset.GetValues(problem.TargetVariable())` and the training range. -/
structure Problem where
  targetColumn : List Scalar
  TrainingRange : Range
  deriving DecidableEq

/-- Embedding of `struct EvaluatorBase`: the three counters and the two
configuration values. -/
structure EvaluatorBase where
  ResidualEvaluations : Nat
  JacobianEvaluations : Nat
  CallCount : Nat
  problem_ : Problem
  iterations_ : Nat
  budget_ : Nat
  deriving DecidableEq

namespace EvaluatorBase

def DefaultLocalOptimizationIterations : Nat := 50

def DefaultEvaluationBudget : Nat := 100000

/-- Embedding of the constructor `EvaluatorBase(Problem& problem)`. -/
def create (problem : Problem) : EvaluatorBase :=
  { ResidualEvaluations := 0, JacobianEvaluations := 0, CallCount := 0,
    problem_ := problem,
    iterations_ := DefaultLocalOptimizationIterations,
    budget_ := DefaultEvaluationBudget }

def TotalEvaluations (b : EvaluatorBase) : Nat :=
  wrapULong (b.ResidualEvaluations + b.JacobianEvaluations)

def SetLocalOptimizationIterations (b : EvaluatorBase) (value : Nat) : EvaluatorBase :=
  { b with iterations_ := value }

def LocalOptimizationIterations (b : EvaluatorBase) : Nat := b.iterations_

def SetBudget (b : EvaluatorBase) (value : Nat) : EvaluatorBase :=
  { b with budget_ := value }

def Budget (b : EvaluatorBase) : Nat := b.budget_

def BudgetExhausted (b : EvaluatorBase) : Bool :=
  decide (b.TotalEvaluations ≥ b.Budget)

def Reset (b : EvaluatorBase) : EvaluatorBase :=
  { b with ResidualEvaluations := 0, JacobianEvaluations := 0, CallCount := 0 }

end EvaluatorBase

/-- What one call of an evaluator's `operator()` leaves behind: the returned
fitness vector, the evaluator itself, and the three arguments passed by reference
or pointing into the caller's memory. -/
structure CallResult (α : Type) where
  fit : List Scalar
  self : α
  rng : RandomGenerator
  ind : Individual
  buf : List Scalar

/-- Embedding of `class Evaluator`. The member `interpreter_` stands for the interpreter
together with the code the evaluator reaches through it (the solver libraries behind
the optimizer, the build's scalar type); `error_` is the metric's
`operator()(estimated, target)`. -/
structure Evaluator where
  base : EvaluatorBase
  interpreter_ : Collaborators
  error_ : List Scalar → Span → Scalar
  scaling_ : Bool

/-- Result of the lambda `computeFitness`: the sequence handed to the fit and to the
metric, the score, and the content of the caller's buffer afterwards. -/
structure FitnessComputation where
  estimated : List Scalar
  score : Scalar
  buf : List Scalar

/-- Embedding of the body of the lambda `computeFitness` of
`Evaluator::operator()` except for its first statement `++ResidualEvaluations`. -/
def computeFitness (e : Evaluator) (genotype : Tree) (targetValues : Span)
    (trainingRange : Range) (buf : List Scalar) : FitnessComputation :=
  let local_ := decide (buf.length < trainingRange.Size)
  let span := if local_ then List.replicate trainingRange.Size (Scalar.finite 0) else buf
  let span := e.interpreter_.Evaluate genotype trainingRange span
  let span :=
    if e.scaling_ then
      let ab := FitLeastSquaresImpl span targetValues
      span.map fun x => Scalar.add (Scalar.mul ab.1 x) ab.2
    else span
  { estimated := span
    score := e.error_ span targetValues
    buf := if local_ then buf else span }

/-- The call `opt.Optimize(targetValues, trainingRange, iter, CallCount)` of
`Evaluator::operator()`: the CERES backend when the build has it (the fourth
argument then binds to `writeCoefficients`), the EIGEN backend otherwise (the
fourth argument is `callCount`, `writeCoefficients` keeps its default `true`).
`callCount` is the value of `CallCount` after its increment. -/
def Evaluator.optimize (e : Evaluator) (callCount : Nat) (genotype : Tree)
    (targetValues : Span) (trainingRange : Range) : Tree × OptimizerSummary :=
  let iter := e.base.LocalOptimizationIterations
  if e.interpreter_.HAVE_CERES then
    OptimizeCeres e.interpreter_ genotype targetValues trainingRange iter
      (decide (callCount ≠ 0))
  else
    OptimizeEigen e.interpreter_ genotype targetValues trainingRange iter
      (castInt callCount) true

/-- Embedding of the `if (iter > 0) { ... }` block of `Evaluator::operator()`: the
genotype and the counters `ResidualEvaluations`, `JacobianEvaluations` after it. -/
def localOptimization (e : Evaluator) (callCount : Nat) (genotype : Tree)
    (targetValues : Span) (trainingRange : Range) : Tree × Nat × Nat :=
  let iter := e.base.LocalOptimizationIterations
  if 0 < iter then
    let coeff := genotype.GetCoefficients
    let r := e.optimize callCount genotype targetValues trainingRange
    let summary := r.2
    let res := addIntToULong e.base.ResidualEvaluations summary.FunctionEvaluations
    let jac := addIntToULong e.base.JacobianEvaluations summary.JacobianEvaluations
    let genotype := if summary.Success then r.1.SetCoefficients coeff else r.1
    (genotype, res, jac)
  else (genotype, e.base.ResidualEvaluations, e.base.JacobianEvaluations)

/-- The training target values `targetValues` of `Evaluator::operator()`:
`dataset.GetValues(problem.TargetVariable()).subspan(trainingRange.Start(),
trainingRange.Size())`, a span into the target column. -/
def Evaluator.targetValues (e : Evaluator) : Span :=
  (Span.ofList e.base.problem_.targetColumn).subspan e.base.problem_.TrainingRange.Start
    e.base.problem_.TrainingRange.Size

/-- Embedding of `Evaluator::operator()`. -/
def Evaluator.call (e : Evaluator) (rng : RandomGenerator) (ind : Individual)
    (buf : List Scalar) : CallResult Evaluator :=
  let callCount := wrapULong (e.base.CallCount + 1)
  let problem := e.base.problem_
  let trainingRange := problem.TrainingRange
  let targetValues := e.targetValues
  let opt := localOptimization e callCount ind.Genotype targetValues trainingRange
  let genotype := opt.1
  let res := wrapULong (opt.2.1 + 1)
  let c := computeFitness e genotype targetValues trainingRange buf
  let fit := [e.interpreter_.toScalar c.score]
  let fit := fit.map fun v =>
    if !v.isfinite then Scalar.finite e.interpreter_.ScalarMax else v
  { fit := fit
    self := { e with base := { e.base with
      CallCount := callCount, ResidualEvaluations := res, JacobianEvaluations := opt.2.2 } }
    rng := rng
    ind := { ind with Genotype := genotype }
    buf := c.buf }

/-- A user function `(rng, individual) -> fitness`; both arguments are passed by
reference (or pointer), so the function returns their state afterwards as well. -/
abbrev UserFunction := RandomGenerator → Individual → List Scalar × RandomGenerator × Individual

/-- Embedding of `class UserDefinedEvaluator`: `fptr_` is empty unless the
evaluator was built from a function taking a pointer to the generator. -/
structure UserDefinedEvaluator where
  base : EvaluatorBase
  fref_ : UserFunction
  fptr_ : Option UserFunction

/-- Embedding of `UserDefinedEvaluator::operator()`. -/
def UserDefinedEvaluator.call (u : UserDefinedEvaluator) (rng : RandomGenerator)
    (ind : Individual) (buf : List Scalar) : CallResult UserDefinedEvaluator :=
  let self := { u with base := { u.base with CallCount := wrapULong (u.base.CallCount + 1) } }
  let r := match u.fptr_ with
    | some f => f rng ind
    | none => u.fref_ rng ind
  { fit := r.1, self := self, rng := r.2.1, ind := r.2.2, buf := buf }

/-- Embedding of `class LengthEvaluator`. -/
def LengthEvaluator (problem : Problem) (maxlength : Nat) : UserDefinedEvaluator :=
  { base := EvaluatorBase.create problem
    fref_ := fun rng ind =>
      ([Scalar.div (Scalar.ofNat ind.Genotype.Length) (Scalar.ofNat maxlength)], rng, ind)
    fptr_ := none }

/-- An enumerator of `Operon::HashMode` (declared outside these files). -/
abbrev HashMode := Nat

/-- Embedding of `class DiversityEvaluator`: the map from hash value to count as an
association list, and the total. `toScalar` is `static_cast<Operon::Scalar>`. -/
structure DiversityEvaluator where
  base : EvaluatorBase
  divmap_ : List (Nat × Nat)
  total_ : Scalar
  hashmode_ : HashMode
  toScalar : Scalar → Scalar

/-- Embedding of `auto [it, _] = divmap_.insert({ hash, 0 }); ++it->second;`: the
count of `hash` is raised by one, starting from zero for a hash not in the map (the
counts are bounded by the number of nodes held in memory, so they do not wrap). -/
def divmapIncrement : List (Nat × Nat) → Nat → List (Nat × Nat)
  | [], hash => [(hash, 1)]
  | (k, c) :: rest, hash =>
    if k = hash then (k, c + 1) :: rest else (k, c) :: divmapIncrement rest hash

/-- Embedding of `DiversityEvaluator::Prepare`. `Hash mode tree` is the tree as
`tree.Hash(mode)` leaves it (the nodes with their calculated hash values); `Tree::Hash`
is outside these files. -/
def DiversityEvaluator.Prepare (d : DiversityEvaluator) (Hash : HashMode → Tree → Tree)
    (pop : List Individual) : DiversityEvaluator :=
  let start : List (Nat × Nat) × Scalar := ([], Scalar.finite 0)
  let s := pop.foldl
    (fun acc ind =>
      let genotype := Hash d.hashmode_ ind.Genotype
      (genotype.Nodes.foldl (fun m node => divmapIncrement m node.CalculatedHashValue) acc.1,
        Scalar.add acc.2 (Scalar.ofNat genotype.Length)))
    start
  { d with divmap_ := s.1, total_ := s.2 }

/-- Embedding of `DiversityEvaluator::operator()`. -/
def DiversityEvaluator.call (d : DiversityEvaluator) (rng : RandomGenerator)
    (ind : Individual) (buf : List Scalar) : CallResult DiversityEvaluator :=
  let nodes := ind.Genotype.Nodes
  let sum := nodes.foldl
    (fun acc n => Scalar.add acc (Scalar.ofNat ((d.divmap_.lookup n.CalculatedHashValue).getD 0)))
    (Scalar.finite 0)
  { fit := [Scalar.div sum (d.toScalar d.total_)], self := d, rng := rng, ind := ind, buf := buf }

/-- An object of one of the evaluator classes of `evaluator.hpp` that compute a
fitness themselves, told apart by the dynamic type. -/
inductive EvaluatorObject where
  | evaluator (e : Evaluator)
  | userDefined (u : UserDefinedEvaluator)
  | diversity (d : DiversityEvaluator)

/-- The `EvaluatorBase` part of the object. -/
def EvaluatorObject.base : EvaluatorObject → EvaluatorBase
  | evaluator e => e.base
  | userDefined u => u.base
  | diversity d => d.base

/-- The virtual call `ev(rng, ind, buf)` on the object. -/
def EvaluatorObject.call (ev : EvaluatorObject) (rng : RandomGenerator) (ind : Individual)
    (buf : List Scalar) : CallResult EvaluatorObject :=
  match ev with
  | evaluator e =>
    let r := e.call rng ind buf
    { fit := r.fit, self := evaluator r.self, rng := r.rng, ind := r.ind, buf := r.buf }
  | userDefined u =>
    let r := u.call rng ind buf
    { fit := r.fit, self := userDefined r.self, rng := r.rng, ind := r.ind, buf := r.buf }
  | diversity d =>
    let r := d.call rng ind buf
    { fit := r.fit, self := diversity r.self, rng := r.rng, ind := r.ind, buf := r.buf }

/-- A `std::reference_wrapper<EvaluatorBase const>`: the address of the object it
refers to. References to one object are equal addresses. -/
abbrev EvaluatorRef := Nat

/-- The evaluator objects of the program, by address. A multi-evaluator reads and
changes the objects at the addresses registered with it. -/
abbrev Heap := EvaluatorRef → EvaluatorObject

/-- The objects after the one at `ref` has become `obj`. -/
def Heap.set (heap : Heap) (ref : EvaluatorRef) (obj : EvaluatorObject) : Heap :=
  fun a => if a = ref then obj else heap a

/-- Embedding of `class MultiEvaluator`: `evaluators_` is the vector of references
in registration order. -/
structure MultiEvaluator where
  base : EvaluatorBase
  evaluators_ : List EvaluatorRef

/-- Embedding of the constructor `MultiEvaluator(Problem& problem)`. -/
def MultiEvaluator.create (problem : Problem) : MultiEvaluator :=
  { base := EvaluatorBase.create problem, evaluators_ := [] }

/-- Embedding of `MultiEvaluator::Add`. -/
def MultiEvaluator.Add (m : MultiEvaluator) (evaluator : EvaluatorRef) : MultiEvaluator :=
  { m with evaluators_ := m.evaluators_ ++ [evaluator] }

/-- The local variables of `MultiEvaluator::operator()` together with the state the
sub-evaluators act on: the evaluator objects, the generator, the individual and the
buffer. -/
structure MultiLoop where
  fit : List Scalar
  resEval : Nat
  jacEval : Nat
  eval : Nat
  heap : Heap
  rng : RandomGenerator
  ind : Individual
  buf : List Scalar

/-- One iteration of the loop `for (auto const& ev : evaluators_)`: the object that
`ev` refers to is called, and its counters are read after the call. -/
def MultiLoop.step (s : MultiLoop) (ev : EvaluatorRef) : MultiLoop :=
  let r := (s.heap ev).call s.rng s.ind s.buf
  let heap := Heap.set s.heap ev r.self
  { fit := s.fit ++ r.fit
    resEval := wrapULong (s.resEval + (heap ev).base.ResidualEvaluations)
    jacEval := wrapULong (s.jacEval + (heap ev).base.JacobianEvaluations)
    eval := wrapULong (s.eval + (heap ev).base.CallCount)
    heap := heap
    rng := r.rng
    ind := r.ind
    buf := r.buf }

/-- What a call of `MultiEvaluator::operator()` leaves behind: as for `CallResult`,
and the evaluator objects after the call. -/
structure MultiCallResult where
  fit : List Scalar
  self : MultiEvaluator
  heap : Heap
  rng : RandomGenerator
  ind : Individual
  buf : List Scalar

/-- Embedding of `MultiEvaluator::operator()`. -/
def MultiEvaluator.call (m : MultiEvaluator) (heap : Heap) (rng : RandomGenerator)
    (ind : Individual) (buf : List Scalar) : MultiCallResult :=
  let start : MultiLoop :=
    { fit := [], resEval := 0, jacEval := 0, eval := 0, heap := heap,
      rng := rng, ind := ind, buf := buf }
  let s := m.evaluators_.foldl MultiLoop.step start
  { fit := s.fit
    self :=
      { m with base := { m.base with
          ResidualEvaluations := s.resEval, JacobianEvaluations := s.jacEval,
          CallCount := s.eval } }
    heap := s.heap
    rng := s.rng
    ind := s.ind
    buf := s.buf }

/-! ## Notions used to state the properties -/

/-- The optimizer run that `Evaluator::operator()` makes for `ind` when the number of
local-optimization iterations is positive: the tree the optimizer leaves and its
summary. -/
def Evaluator.optimizerRun (e : Evaluator) (ind : Individual) : Tree × OptimizerSummary :=
  e.optimize (wrapULong (e.base.CallCount + 1)) ind.Genotype e.targetValues
    e.base.problem_.TrainingRange

/-- The score of `tree` over the training range: the metric's result converted to
`Operon::Scalar`, before the replacement of a non-finite value. -/
def Evaluator.score (e : Evaluator) (tree : Tree) (buf : List Scalar) : Scalar :=
  e.interpreter_.toScalar
    (computeFitness e tree e.targetValues e.base.problem_.TrainingRange buf).score

/-- The results of calling the registered sub-evaluators one after the other, each on
the objects, generator, individual and buffer the previous call left. -/
def subCalls : List EvaluatorRef → Heap → RandomGenerator → Individual → List Scalar →
    List (CallResult EvaluatorObject)
  | [], _, _, _, _ => []
  | ev :: rest, heap, rng, ind, buf =>
    let r := (heap ev).call rng ind buf
    r :: subCalls rest (Heap.set heap ev r.self) r.rng r.ind r.buf

/-- The evaluator objects after the calls of `subCalls`. -/
def heapAfter : List EvaluatorRef → Heap → RandomGenerator → Individual → List Scalar → Heap
  | [], heap, _, _, _ => heap
  | ev :: rest, heap, rng, ind, buf =>
    let r := (heap ev).call rng ind buf
    heapAfter rest (Heap.set heap ev r.self) r.rng r.ind r.buf

/-- The outputs `e1(ind), ..., eN(ind)` of the sub-evaluators, in registration
order. -/
def subOutputs (evs : List EvaluatorRef) (heap : Heap) (rng : RandomGenerator)
    (ind : Individual) (buf : List Scalar) : List (List Scalar) :=
  (subCalls evs heap rng ind buf).map fun r => r.fit

/-- Each of the three counters of `a` is at most that of `b`. -/
def EvaluatorBase.countersLe (a b : EvaluatorBase) : Prop :=
  a.ResidualEvaluations ≤ b.ResidualEvaluations ∧
  a.JacobianEvaluations ≤ b.JacobianEvaluations ∧
  a.CallCount ≤ b.CallCount

/-- The sum `ResidualEvaluations + JacobianEvaluations` fits an `unsigned long`. -/
def EvaluatorBase.totalInRange (b : EvaluatorBase) : Bool :=
  decide (b.ResidualEvaluations + b.JacobianEvaluations < ULONG_MOD)

/-- The summary whose counts `Evaluator::operator()` adds to its counters when called
for `ind`: that of the optimizer run when the number of iterations is positive, and
otherwise nothing is added (the all-zero summary). -/
def Evaluator.addedSummary (e : Evaluator) (ind : Individual) : OptimizerSummary :=
  if 0 < e.base.LocalOptimizationIterations then (e.optimizerRun ind).2
  else OptimizerSummary.zero

/-- The call of `Evaluator::operator()` for `ind` stays in the range of the counters:
the optimizer reports non-negative evaluation counts and no counter passes the
largest `unsigned long`. -/
def Evaluator.inRange (e : Evaluator) (ind : Individual) : Bool :=
  decide (0 ≤ (e.addedSummary ind).FunctionEvaluations) &&
  decide (0 ≤ (e.addedSummary ind).JacobianEvaluations) &&
  decide (e.base.CallCount + 1 < ULONG_MOD) &&
  decide (e.base.ResidualEvaluations + (e.addedSummary ind).FunctionEvaluations.toNat + 1
    < ULONG_MOD) &&
  decide (e.base.JacobianEvaluations + (e.addedSummary ind).JacobianEvaluations.toNat
    < ULONG_MOD)

/-- The call count of the user-defined evaluator does not pass the largest `unsigned
long` on the next call. -/
def UserDefinedEvaluator.inRange (u : UserDefinedEvaluator) : Bool :=
  decide (u.base.CallCount + 1 < ULONG_MOD)

/-- The virtual call for `ind` stays in the range of the counters. -/
def EvaluatorObject.inRange (ev : EvaluatorObject) (ind : Individual) : Bool :=
  match ev with
  | evaluator e => e.inRange ind
  | userDefined u => u.inRange
  | diversity _ => true

/-- Every call of `subCalls` stays in the range of the counters. -/
def subCallsInRange : List EvaluatorRef → Heap → RandomGenerator → Individual →
    List Scalar → Bool
  | [], _, _, _, _ => true
  | ev :: rest, heap, rng, ind, buf =>
    (heap ev).inRange ind &&
      subCallsInRange rest (Heap.set heap ev ((heap ev).call rng ind buf).self)
        ((heap ev).call rng ind buf).rng ((heap ev).call rng ind buf).ind
        ((heap ev).call rng ind buf).buf

/-- The sums, over the registered references, of the counters of the objects referred
to (an object registered twice is counted twice). -/
def sumResidual (heap : Heap) (evs : List EvaluatorRef) : Nat :=
  (evs.map fun ev => (heap ev).base.ResidualEvaluations).sum

def sumJacobian (heap : Heap) (evs : List EvaluatorRef) : Nat :=
  (evs.map fun ev => (heap ev).base.JacobianEvaluations).sum

def sumCalls (heap : Heap) (evs : List EvaluatorRef) : Nat :=
  (evs.map fun ev => (heap ev).base.CallCount).sum

/-- The call of `MultiEvaluator::operator()` stays in the range of the counters: each
call of a sub-evaluator does, and so do the three sums over the registered
sub-evaluators afterwards. -/
def MultiEvaluator.inRange (m : MultiEvaluator) (heap : Heap) (rng : RandomGenerator)
    (ind : Individual) (buf : List Scalar) : Bool :=
  subCallsInRange m.evaluators_ heap rng ind buf &&
  decide (sumResidual (m.call heap rng ind buf).heap m.evaluators_ < ULONG_MOD) &&
  decide (sumJacobian (m.call heap rng ind buf).heap m.evaluators_ < ULONG_MOD) &&
  decide (sumCalls (m.call heap rng ind buf).heap m.evaluators_ < ULONG_MOD)

/-- The counters of the multi-evaluator are at most the sums of its sub-evaluators'
counters: so it is for a new multi-evaluator, after `Reset`, after `Add`, after a
call of a sub-evaluator and after every call of the multi-evaluator itself. -/
def MultiEvaluator.Consistent (m : MultiEvaluator) (heap : Heap) : Prop :=
  m.base.ResidualEvaluations ≤ sumResidual heap m.evaluators_ ∧
  m.base.JacobianEvaluations ≤ sumJacobian heap m.evaluators_ ∧
  m.base.CallCount ≤ sumCalls heap m.evaluators_

/-- The content of the evaluation buffer (the caller's, or a local one when the
caller's is too small) after `Interpreter::Evaluate`: the sequence `buf` that
`Evaluator::operator()` hands to the fit and to the metric. -/
def Evaluator.evaluated (e : Evaluator) (tree : Tree) (buf : List Scalar) : List Scalar :=
  e.interpreter_.Evaluate tree e.base.problem_.TrainingRange
    (if buf.length < e.base.problem_.TrainingRange.Size
      then List.replicate e.base.problem_.TrainingRange.Size (Scalar.finite 0) else buf)

/-- The predictions `p` of `tree` over the training range: the first
`trainingRange.Size()` elements of the evaluation buffer after
`Interpreter::Evaluate`, one for each row of the range. -/
def Evaluator.predictions (e : Evaluator) (tree : Tree) (buf : List Scalar) : List Scalar :=
  (e.evaluated tree buf).take e.base.problem_.TrainingRange.Size

/-- The sequence `a * p + b`, element by element. -/
def scaleBy (ab : Scalar × Scalar) (p : List Scalar) : List Scalar :=
  p.map fun x => Scalar.add (Scalar.mul ab.1 x) ab.2

/-- All nodes of all individuals of the population, with their calculated hash
values. -/
def hashedNodes (Hash : HashMode → Tree → Tree) (mode : HashMode) (pop : List Individual) :
    List Node :=
  (pop.map fun ind => (Hash mode ind.Genotype).Nodes).flatten

/-- The number of occurrences of a hash value among nodes. -/
def occurrences (nodes : List Node) (hash : Nat) : Nat :=
  nodes.countP fun n => decide (n.CalculatedHashValue = hash)

/-- The sum, over the individual's own nodes, of the occurrences of the node's hash
among `nodes`. -/
def sharedOccurrences (nodes : List Node) (ind : Individual) : Nat :=
  (ind.Genotype.Nodes.map fun n => occurrences nodes n.CalculatedHashValue).sum

/-! ### The best individual (operon_nsgp.cpp) -/

/-- Embedding of `a < b` on floating-point values: false when either is NaN. -/
def Scalar.lt (a b : Scalar) : Bool := Scalar.gt b a

/-- Embedding of `a <= b` on floating-point values: false when either is NaN. -/
def Scalar.le : Scalar → Scalar → Bool
  | finite a, finite b => decide (a ≤ b)
  | nan, _ => false
  | _, nan => false
  | negInf, _ => true
  | _, posInf => true
  | posInf, _ => false
  | finite _, negInf => false

/-- Embedding of `ind[idx]`, the objective `idx` of the individual's fitness vector
(`Individual::operator[]` is outside these files); an index past the end of the vector
is not defined by the language and is given the value NaN. -/
def Individual.objective (ind : Individual) (idx : Nat) : Scalar :=
  ind.Fitness.getD idx Scalar.nan

/-- The loop of `std::min_element`: `smallest` (at position `smallestIdx`) is replaced
by the element at hand whenever `comp(element, smallest)` holds. -/
def minElementLoop {α : Type} (comp : α → α → Bool) (smallestIdx : Nat) (smallest : α) :
    Nat → List α → Nat × α
  | _, [] => (smallestIdx, smallest)
  | i, x :: rest =>
    if comp x smallest then minElementLoop comp i x (i + 1) rest
    else minElementLoop comp smallestIdx smallest (i + 1) rest

/-- The algorithm of `std::min_element(first, last, comp)`: the position and the value
of the element found, none for an empty range (the iterator `last`). -/
def minElement {α : Type} (comp : α → α → Bool) : List α → Option (Nat × α)
  | [] => none
  | x :: rest => some (minElementLoop comp 0 x 1 rest)

/-- The position in the population of the element that `getBest` returns. -/
def getBestPosition (pop : List Individual) : Option Nat :=
  (minElement (fun lhs rhs => Scalar.lt (lhs.objective 0) (rhs.objective 0)) pop).map Prod.fst

/-- Embedding of the lambda `getBest` of `main`, with `idx = 0`; none for an empty
population, where the iterator `last` is dereferenced. -/
def getBest (pop : List Individual) : Option Individual :=
  (minElement (fun lhs rhs => Scalar.lt (lhs.objective 0) (rhs.objective 0)) pop).map Prod.snd

/-! ### Non-dominated sorting -/

/-- Modelled from the spec: "A dominates B iff A is no worse than B in every objective
and strictly better in at least one (all objectives minimization)", over the first
`n` objectives (no dominance relation of the repository is among these files). -/
def dominates (n : Nat) (a b : Individual) : Bool :=
  (List.range n).all (fun i => Scalar.le (a.objective i) (b.objective i)) &&
  (List.range n).any (fun i => Scalar.lt (a.objective i) (b.objective i))

/-- No individual of `rest` dominates `x`. -/
def nonDominatedIn (n : Nat) (rest : List (Nat × Individual)) (x : Nat × Individual) : Bool :=
  rest.all fun y => !dominates n y.2 x.2

/-- The fronts of the individuals `rest`, each with its position in the population:
the first front holds those that no individual of `rest` dominates, the following
fronts are those of the others. `fuel` bounds the number of fronts. -/
def peelFronts (n : Nat) : Nat → List (Nat × Individual) → List (List (Nat × Individual))
  | 0, _ => []
  | fuel + 1, rest =>
    if rest.isEmpty then []
    else
      rest.filter (nonDominatedIn n rest) ::
        peelFronts n fuel (rest.filter fun x => !nonDominatedIn n rest x)

/-- Modelled from the spec: the non-dominated sorter (`RankIntersectSorter`, whose code
is not among these files) must "partition it into ordered fronts such that front 0
contains all individuals not dominated by any other, front k contains individuals
dominated only by individuals in fronts < k". The fronts list the individuals with
their positions in the population; `n` is the number of objectives. -/
def nonDominatedSort (n : Nat) (pop : List Individual) : List (List (Nat × Individual)) :=
  peelFronts n pop.length pop.enum

/-! ### The command-line program (operon_nsgp.cpp) -/

/-- What `main` reads from the command line and the dataset before the evolution
starts: whether `--show-primitives` is given, whether the dataset has the target
variable, the ranges of `--train` and `--test` when given, the number of rows, and
whether every name of `--inputs` is a variable of the dataset (true without the
option). -/
structure Options where
  showPrimitiveSet : Bool
  targetExists : Bool
  train : Option Range
  test : Option Range
  rows : Nat
  inputsExist : Bool
  deriving DecidableEq

/-- The value of `EXIT_FAILURE`. -/
def EXIT_FAILURE : Nat := 1

/-- How `main` goes on: it returns a status before the evolution, it is ended by a
failed `EXPECT` (the macro is declared outside these files; as a precondition check
it ends the program when its condition is false), or it reaches `gp.Run` with the
training and the test range of the problem. -/
inductive Outcome where
  | returned (status : Nat)
  | expectFailed
  | evolution (trainingRange testRange : Range)
  deriving DecidableEq

/-- The program ends with a failure status before the evolution. -/
def Outcome.isFailure : Outcome → Bool
  | returned status => decide (status ≠ 0)
  | expectFailed => true
  | evolution _ _ => false

/-- The training range of `main`: that of `--train`, by default the first two thirds of
the rows. -/
def Options.trainingRange (o : Options) : Range :=
  match o.train with
  | some r => r
  | none => { Start := 0, End := 2 * o.rows / 3 }

/-- The test range of `main`: that of `--test`, and otherwise the one inferred from the
training range. -/
def Options.testRange (o : Options) : Range :=
  match o.test with
  | some r => r
  | none =>
    if o.trainingRange.Start > 0 then { Start := 0, End := o.trainingRange.Start }
    else if o.trainingRange.End < o.rows then { Start := o.trainingRange.End, End := o.rows }
    else { Start := 0, End := 1 }

/-- Embedding of `main` from the end of the option loop to the call of `gp.Run`: the
checks that end the program, in the order of the source. -/
def mainOutcome (o : Options) : Outcome :=
  if o.showPrimitiveSet then Outcome.returned 0
  else if !o.targetExists then Outcome.returned EXIT_FAILURE
  else
    let trainingRange := o.trainingRange
    let testRange := o.testRange
    if trainingRange.Start ≥ o.rows ∨ trainingRange.End > o.rows then
      Outcome.returned EXIT_FAILURE
    else if trainingRange.Start > trainingRange.End then Outcome.returned EXIT_FAILURE
    else if !o.inputsExist then Outcome.returned EXIT_FAILURE
    else if !decide (trainingRange.Size > 0) then Outcome.expectFailed
    else Outcome.evolution trainingRange testRange

/-- Row `i` lies in the range `[Start, End)`. -/
def Range.contains (r : Range) (i : Nat) : Bool :=
  decide (r.Start ≤ i) && decide (i < r.End)

/-! ### Exact statistics of rational sequences -/

/-- The mean of a sequence. -/
def meanQ (xs : List ℚ) : ℚ := xs.sum / xs.length

/-- The population variance of a sequence. -/
def varianceQ (xs : List ℚ) : ℚ :=
  (xs.map fun x => (x - meanQ xs) * (x - meanQ xs)).sum / xs.length

/-- The population covariance of two row-aligned sequences. -/
def covarianceQ (xs ys : List ℚ) : ℚ :=
  ((xs.zip ys).map fun p => (p.1 - meanQ xs) * (p.2 - meanQ ys)).sum / xs.length

/-- The least-squares scale and offset in the spec's words: `a = cov(estimated,
target) / var(estimated)`, clamped to 1 for a zero variance, and
`b = mean(target) - a * mean(estimated)`. -/
def fitQ (estimated target : List ℚ) : ℚ × ℚ :=
  let a :=
    if varianceQ estimated = 0 then 1
    else covarianceQ estimated target / varianceQ estimated
  (a, meanQ target - a * meanQ estimated)

/-- A sequence of finite scalars. -/
def finiteScalars (xs : List ℚ) : List Scalar := xs.map Scalar.finite

/-- The affine transform `a0 * t[i] + b0` of every element. -/
def affineQ (a0 b0 : ℚ) (t : List ℚ) : List ℚ := t.map fun x => a0 * x + b0

namespace Example

/-- An interpreter whose prediction for every row is the tree's first coefficient,
with a Levenberg-Marquardt solver that moves every coefficient to 2 and reports
`info`. -/
def collaborators (info : ComputationInfo) : Collaborators :=
  { Evaluate := fun t r _ => List.replicate r.Size (t.Coefficients.headD (Scalar.finite 0))
    tinyDefault :=
      { initial_cost := Scalar.finite (-1), final_cost := Scalar.finite (-1), iterations := -1 }
    tinySolve := fun _ _ _ _ x =>
      (x.map fun _ => Scalar.finite 2,
        { initial_cost := Scalar.finite 4, final_cost := Scalar.finite 4, iterations := 3 })
    lmDefault := { iterations := 0, nfev := 0, njev := 0 }
    lmMinimize := fun _ _ _ _ _ x =>
      { x := x.map fun _ => Scalar.finite 2, info := info,
        counters := { iterations := 3, nfev := 4, njev := 3 } }
    ceresSolve := fun _ _ _ _ x =>
      (x.map fun _ => Scalar.finite 2,
        { initial_cost := Scalar.finite 4, final_cost := Scalar.finite 4, iterations_size := 3,
          num_residual_evaluations := 4, num_jacobian_evaluations := 3 })
    HAVE_CERES := false
    toScalar := id
    ScalarMax := 1000 }

/-- Three rows of target values, the first two of them for training. -/
def problem : Problem :=
  { targetColumn := [Scalar.finite 1, Scalar.finite 2, Scalar.finite 3]
    TrainingRange := { Start := 0, End := 2 } }

/-- An evaluator without linear scaling whose metric is the first estimated
value. -/
def evaluator (info : ComputationInfo) : Evaluator :=
  { base := EvaluatorBase.create problem
    interpreter_ := collaborators info
    error_ := fun estimated _ => estimated.headD Scalar.nan
    scaling_ := false }

/-- A tree with the single coefficient 1. -/
def tree : Tree := { Nodes := [⟨7⟩], Coefficients := [Scalar.finite 1] }

def individual : Individual := { Genotype := tree, Fitness := [] }

/-- A tree with nodes and no free coefficient. -/
def constantTree : Tree := { Nodes := [⟨7⟩, ⟨8⟩], Coefficients := [] }

/-- An individual with the given fitness vector. -/
def withFitness (fitness : List ℚ) : Individual :=
  { Genotype := tree, Fitness := fitness.map Scalar.finite }

/-- An interpreter that writes its prediction, the tree's first coefficient, over the
first `range.Size()` elements of the buffer and leaves the others as they are. -/
def collaboratorsInPlace : Collaborators :=
  { collaborators ComputationInfo.NoConvergence with
    Evaluate := fun t r buf =>
      List.replicate r.Size (t.Coefficients.headD (Scalar.finite 0)) ++ buf.drop r.Size }

/-- The example evaluator over the interpreter that writes in place, without local
optimization. -/
def evaluatorInPlace : Evaluator :=
  { base := (EvaluatorBase.create problem).SetLocalOptimizationIterations 0
    interpreter_ := collaboratorsInPlace
    error_ := fun estimated _ => estimated.headD Scalar.nan
    scaling_ := false }

/-- A metric that reads the target as the repository's metrics do (`MSE::operator()`
passes `estimated.begin()`, `estimated.end()`, `target.begin()`): the sum of the
squared differences of `estimated[i]` and the scalar at `target.data()[i]`, for
`i < estimated.size()`. -/
def squaredError (estimated : List Scalar) (target : Span) : Scalar :=
  sumScalars ((pairRows estimated target.data).map fun r =>
    Scalar.mul (Scalar.sub r.1 r.2) (Scalar.sub r.1 r.2))

/-- The evaluator over the interpreter that writes in place, without local
optimization and without linear scaling, with the sum of squared errors as metric. -/
def evaluatorSquares : Evaluator :=
  { evaluatorInPlace with error_ := squaredError }

/-- The population with the objective vectors (1,5), (2,3), (3,1), (2,2). -/
def paretoPopulation : List Individual :=
  [withFitness [1, 5], withFitness [2, 3], withFitness [3, 1], withFitness [2, 2]]

/-- A population of four individuals with two objectives each. -/
def population : List Individual :=
  [withFitness [3, 1], withFitness [1, 5], withFitness [2, 2], withFitness [1, 4]]

/-- The evaluator objects of the example: the error evaluator at address 0 and a
length evaluator at every other address. -/
def heap : Heap := fun a =>
  if a = 0 then EvaluatorObject.evaluator (evaluator ComputationInfo.NoConvergence)
  else EvaluatorObject.userDefined (LengthEvaluator problem 10)

/-- A multi-evaluator with the error evaluator and a length evaluator registered, as
in the command-line program. -/
def multi : MultiEvaluator :=
  ((MultiEvaluator.create problem).Add 0).Add 1

/-- The error evaluator after one call: its counters are 1 call, 5 residual and 3
Jacobian evaluations. -/
def usedEvaluator : Evaluator :=
  ((evaluator ComputationInfo.NoConvergence).call 0 individual []).self

/-- The length evaluator after one call. -/
def usedLength : UserDefinedEvaluator :=
  ((LengthEvaluator problem 10).call 0 individual []).self

/-- The multi-evaluator after one call, and the evaluator objects it leaves. -/
def usedMulti : MultiEvaluator := (multi.call heap 0 individual []).self

def usedHeap : Heap := (multi.call heap 0 individual []).heap

/-- The used evaluators with a budget that their counters have reached; the public
counters of the length evaluator are set to 2 and 1. -/
def spentEvaluator : Evaluator :=
  { usedEvaluator with base := usedEvaluator.base.SetBudget 8 }

def spentLength : UserDefinedEvaluator :=
  { usedLength with base :=
      ({ usedLength.base with ResidualEvaluations := 2, JacobianEvaluations := 1 } :
        EvaluatorBase).SetBudget 3 }

def spentMulti : MultiEvaluator :=
  { usedMulti with base := usedMulti.base.SetBudget 8 }

end Example

/-! ## The evaluator's local optimization -/

/-- The genotype after `Evaluator::operator()` with a positive number of iterations:
the tree the optimizer left when its summary reports no success, and that tree with
the coefficients of before the call when it reports success. -/
theorem Evaluator.call_genotype (e : Evaluator) (rng : RandomGenerator) (ind : Individual)
    (buf : List Scalar) (h : 0 < e.base.LocalOptimizationIterations) :
    (e.call rng ind buf).ind.Genotype =
      if (e.optimizerRun ind).2.Success
      then (e.optimizerRun ind).1.SetCoefficients ind.Genotype.GetCoefficients
      else (e.optimizerRun ind).1 := by
  simp [Evaluator.call, localOptimization, Evaluator.optimizerRun, h]

/-- C1, evaluated on the code: with 50 local-optimization iterations and an optimizer
whose summary reports `Success = false`, the tree's coefficient 1 has become the
optimizer's 2 after `Evaluator::operator()`: the prior coefficients are not kept. -/
theorem C1_unsuccessful_optimization_changes_coefficients :
    0 < (Example.evaluator ComputationInfo.NoConvergence).base.LocalOptimizationIterations ∧
    ((Example.evaluator ComputationInfo.NoConvergence).optimizerRun
      Example.individual).2.Success = false ∧
    Example.individual.Genotype.GetCoefficients = [Scalar.finite 1] ∧
    ((Example.evaluator ComputationInfo.NoConvergence).call 0
      Example.individual []).ind.Genotype.GetCoefficients = [Scalar.finite 2] := by
  decide

/-- C2, evaluated on the code: with 50 local-optimization iterations and an optimizer
whose summary reports `Success = true` and whose optimized coefficient is 2, the
tree holds the prior coefficient 1 after `Evaluator::operator()`, and the returned
fitness 1 is the score of the tree with the prior coefficient, where the optimized
coefficient scores 2. -/
theorem C2_successful_optimization_restores_coefficients :
    0 < (Example.evaluator ComputationInfo.Success).base.LocalOptimizationIterations ∧
    ((Example.evaluator ComputationInfo.Success).optimizerRun
      Example.individual).2.Success = true ∧
    ((Example.evaluator ComputationInfo.Success).optimizerRun
      Example.individual).1.GetCoefficients = [Scalar.finite 2] ∧
    ((Example.evaluator ComputationInfo.Success).call 0
      Example.individual []).ind.Genotype.GetCoefficients = [Scalar.finite 1] ∧
    ((Example.evaluator ComputationInfo.Success).call 0
      Example.individual []).fit = [Scalar.finite 1] ∧
    (Example.evaluator ComputationInfo.Success).score
      ((Example.evaluator ComputationInfo.Success).optimizerRun Example.individual).1 []
      = Scalar.finite 2 := by
  decide

/-- C3: `Evaluator::operator()` returns a fitness vector of length 1 whose component is
finite: it is the score of the tree the local optimization left, when that score is
finite, and the maximum representable finite scalar otherwise. This holds for every
evaluator (metric, scaling flag, iteration count, interpreter, solvers), individual
and buffer. -/
theorem C3_fitness_has_one_finite_component (e : Evaluator) (rng : RandomGenerator)
    (ind : Individual) (buf : List Scalar) :
    (e.call rng ind buf).fit.length = 1 ∧
    (∀ v ∈ (e.call rng ind buf).fit, v.isfinite = true) ∧
    (e.call rng ind buf).fit =
      [if (e.score (e.call rng ind buf).ind.Genotype buf).isfinite
        then e.score (e.call rng ind buf).ind.Genotype buf
        else Scalar.finite e.interpreter_.ScalarMax] := by
  have key : (e.call rng ind buf).fit =
      [if (e.score (e.call rng ind buf).ind.Genotype buf).isfinite
        then e.score (e.call rng ind buf).ind.Genotype buf
        else Scalar.finite e.interpreter_.ScalarMax] := by
    simp only [Evaluator.call, Evaluator.score, List.map_cons, List.map_nil]
    cases h : (e.interpreter_.toScalar (computeFitness e
      (localOptimization e (wrapULong (e.base.CallCount + 1)) ind.Genotype e.targetValues
        e.base.problem_.TrainingRange).1 e.targetValues e.base.problem_.TrainingRange
          buf).score).isfinite <;> simp
  refine ⟨?_, ?_, key⟩
  · rw [key]; rfl
  · rw [key]
    intro v hv
    rw [List.mem_singleton] at hv
    subst hv
    cases h : (e.score (e.call rng ind buf).ind.Genotype buf).isfinite
    · simp [Scalar.isfinite]
    · simp [h]

/-! ## The multi-evaluator -/

theorem MultiEvaluator.evaluators_of_add (problem : Problem) (evs : List EvaluatorRef) :
    (evs.foldl MultiEvaluator.Add (MultiEvaluator.create problem)).evaluators_ = evs := by
  have h : ∀ (l : List EvaluatorRef) (m : MultiEvaluator),
      (l.foldl MultiEvaluator.Add m).evaluators_ = m.evaluators_ ++ l := by
    intro l
    induction l with
    | nil => intro m; simp
    | cons ev rest ih =>
      intro m
      rw [List.foldl_cons, ih]
      simp [MultiEvaluator.Add]
  simpa [MultiEvaluator.create] using h evs (MultiEvaluator.create problem)

theorem wrapULong_lt (n : Nat) : wrapULong n < ULONG_MOD :=
  Nat.mod_lt _ (by decide)

theorem wrapULong_of_lt {n : Nat} (h : n < ULONG_MOD) : wrapULong n = n :=
  Nat.mod_eq_of_lt h

theorem wrapULong_add_wrap (a b : Nat) : wrapULong (wrapULong a + b) = wrapULong (a + b) := by
  simp [wrapULong, Nat.add_mod]

theorem Heap.set_same (heap : Heap) (ref : EvaluatorRef) (obj : EvaluatorObject) :
    Heap.set heap ref obj ref = obj := by
  simp [Heap.set]

theorem Heap.set_other (heap : Heap) (ref a : EvaluatorRef) (obj : EvaluatorObject)
    (h : a ≠ ref) : Heap.set heap ref obj a = heap a := by
  simp [Heap.set, h]

/-- The loop of `MultiEvaluator::operator()` in terms of the sub-evaluators' calls:
the fitness and the evaluator objects. -/
theorem MultiLoop.foldl_step (evs : List EvaluatorRef) (s : MultiLoop) :
    (evs.foldl MultiLoop.step s).fit
      = s.fit ++ (subOutputs evs s.heap s.rng s.ind s.buf).flatten ∧
    (evs.foldl MultiLoop.step s).heap = heapAfter evs s.heap s.rng s.ind s.buf := by
  induction evs generalizing s with
  | nil => simp [subOutputs, subCalls, heapAfter]
  | cons ev rest ih =>
    rw [List.foldl_cons]
    obtain ⟨h1, h2⟩ := ih (s.step ev)
    refine ⟨?_, ?_⟩
    · rw [h1]; simp [subOutputs, subCalls, MultiLoop.step]
    · rw [h2]; simp [heapAfter, MultiLoop.step]

/-- The loop of `MultiEvaluator::operator()` in terms of the sub-evaluators' calls:
each accumulated counter is the sum of the values read right after each call. -/
theorem MultiLoop.foldl_step_counters (evs : List EvaluatorRef) (s : MultiLoop) :
    wrapULong (evs.foldl MultiLoop.step s).resEval
      = wrapULong (s.resEval + ((subCalls evs s.heap s.rng s.ind s.buf).map
          fun r => r.self.base.ResidualEvaluations).sum) ∧
    wrapULong (evs.foldl MultiLoop.step s).jacEval
      = wrapULong (s.jacEval + ((subCalls evs s.heap s.rng s.ind s.buf).map
          fun r => r.self.base.JacobianEvaluations).sum) ∧
    wrapULong (evs.foldl MultiLoop.step s).eval
      = wrapULong (s.eval + ((subCalls evs s.heap s.rng s.ind s.buf).map
          fun r => r.self.base.CallCount).sum) ∧
    (s.resEval < ULONG_MOD → (evs.foldl MultiLoop.step s).resEval < ULONG_MOD) ∧
    (s.jacEval < ULONG_MOD → (evs.foldl MultiLoop.step s).jacEval < ULONG_MOD) ∧
    (s.eval < ULONG_MOD → (evs.foldl MultiLoop.step s).eval < ULONG_MOD) := by
  induction evs generalizing s with
  | nil => simp [subCalls]
  | cons ev rest ih =>
    rw [List.foldl_cons]
    obtain ⟨h1, h2, h3, h4, h5, h6⟩ := ih (s.step ev)
    refine ⟨?_, ?_, ?_, fun _ => h4 (wrapULong_lt _), fun _ => h5 (wrapULong_lt _),
      fun _ => h6 (wrapULong_lt _)⟩
    · rw [h1]
      simp only [subCalls, MultiLoop.step, List.map_cons, List.sum_cons, Heap.set_same]
      rw [wrapULong_add_wrap, Nat.add_assoc]
    · rw [h2]
      simp only [subCalls, MultiLoop.step, List.map_cons, List.sum_cons, Heap.set_same]
      rw [wrapULong_add_wrap, Nat.add_assoc]
    · rw [h3]
      simp only [subCalls, MultiLoop.step, List.map_cons, List.sum_cons, Heap.set_same]
      rw [wrapULong_add_wrap, Nat.add_assoc]

/-- C4: for sub-evaluators registered with `MultiEvaluator::Add` in the order `evs`
(references to evaluator objects, one object may be registered more than once),
`MultiEvaluator::operator()` returns the concatenation of the sub-evaluators' outputs
in registration order (each sub-evaluator is called on the individual as its
predecessors left it); its length is the sum of the outputs' lengths, and when the
first registered evaluator returns a non-empty vector its first component is at
index 0. -/
theorem C4_multi_fitness_is_concatenation (problem : Problem) (evs : List EvaluatorRef)
    (heap : Heap) (rng : RandomGenerator) (ind : Individual) (buf : List Scalar) :
    ((evs.foldl MultiEvaluator.Add (MultiEvaluator.create problem)).call
      heap rng ind buf).fit = (subOutputs evs heap rng ind buf).flatten ∧
    ((evs.foldl MultiEvaluator.Add (MultiEvaluator.create problem)).call
      heap rng ind buf).fit.length = ((subOutputs evs heap rng ind buf).map List.length).sum ∧
    (subOutputs evs heap rng ind buf).length = evs.length ∧
    (∀ (e1 : EvaluatorRef) (rest : List EvaluatorRef) (x : Scalar) (xs : List Scalar),
      evs = e1 :: rest → ((heap e1).call rng ind buf).fit = x :: xs →
      ((evs.foldl MultiEvaluator.Add (MultiEvaluator.create problem)).call
        heap rng ind buf).fit.head? = some x) := by
  have hfit : ((evs.foldl MultiEvaluator.Add (MultiEvaluator.create problem)).call
      heap rng ind buf).fit = (subOutputs evs heap rng ind buf).flatten := by
    simp only [MultiEvaluator.call, MultiEvaluator.evaluators_of_add]
    rw [(MultiLoop.foldl_step evs _).1]
    simp
  have hlen : ∀ (l : List EvaluatorRef) (h : Heap) (r : RandomGenerator) (i : Individual)
      (b : List Scalar), (subCalls l h r i b).length = l.length := by
    intro l
    induction l with
    | nil => intro h r i b; simp [subCalls]
    | cons ev rest ih => intro h r i b; simp [subCalls, ih]
  refine ⟨hfit, ?_, ?_, ?_⟩
  · rw [hfit, List.length_flatten]
  · simp [subOutputs, hlen]
  · intro e1 rest x xs hevs hx
    rw [hfit, hevs]
    simp [subOutputs, subCalls, hx]

/-- The state after `MultiEvaluator::operator()`: the registered references are kept,
the evaluator objects are those the calls of the sub-evaluators leave, and each
counter is the sum of the values read right after each sub-evaluator's call. -/
theorem MultiEvaluator.call_self (m : MultiEvaluator) (heap : Heap) (rng : RandomGenerator)
    (ind : Individual) (buf : List Scalar) :
    (m.call heap rng ind buf).self.evaluators_ = m.evaluators_ ∧
    (m.call heap rng ind buf).heap = heapAfter m.evaluators_ heap rng ind buf ∧
    (m.call heap rng ind buf).self.base.ResidualEvaluations
      = wrapULong ((subCalls m.evaluators_ heap rng ind buf).map
          fun r => r.self.base.ResidualEvaluations).sum ∧
    (m.call heap rng ind buf).self.base.JacobianEvaluations
      = wrapULong ((subCalls m.evaluators_ heap rng ind buf).map
          fun r => r.self.base.JacobianEvaluations).sum ∧
    (m.call heap rng ind buf).self.base.CallCount
      = wrapULong ((subCalls m.evaluators_ heap rng ind buf).map
          fun r => r.self.base.CallCount).sum ∧
    (m.call heap rng ind buf).self.base.budget_ = m.base.budget_ := by
  obtain ⟨h1, h2, h3, h4, h5, h6⟩ := MultiLoop.foldl_step_counters m.evaluators_
    { fit := [], resEval := 0, jacEval := 0, eval := 0, heap := heap,
      rng := rng, ind := ind, buf := buf }
  have z : (0 : Nat) < ULONG_MOD := by decide
  refine ⟨rfl, ?_, ?_, ?_, ?_, rfl⟩
  · simp only [MultiEvaluator.call]
    rw [(MultiLoop.foldl_step m.evaluators_ _).2]
  · have := h1
    rw [wrapULong_of_lt (h4 z)] at this
    simpa [MultiEvaluator.call] using this
  · have := h2
    rw [wrapULong_of_lt (h5 z)] at this
    simpa [MultiEvaluator.call] using this
  · have := h3
    rw [wrapULong_of_lt (h6 z)] at this
    simpa [MultiEvaluator.call] using this

/-- C8, refuted as stated: the EIGEN backend, run on a tree with one coefficient with a
solver that reports `ComputationInfo::Success`, returns `Success = true` although
`InitialCost > FinalCost` is false (both costs are -1). -/
theorem C8_eigen_success_without_cost_decrease :
    (Optimize OptimizerType.EIGEN (Example.collaborators ComputationInfo.Success)
      Example.tree (Span.ofList [Scalar.finite 1, Scalar.finite 2]) ⟨0, 2⟩ 50 1 true).2.Success = true ∧
    Scalar.gt
      (Optimize OptimizerType.EIGEN (Example.collaborators ComputationInfo.Success)
        Example.tree (Span.ofList [Scalar.finite 1, Scalar.finite 2]) ⟨0, 2⟩ 50 1 true).2.InitialCost
      (Optimize OptimizerType.EIGEN (Example.collaborators ComputationInfo.Success)
        Example.tree (Span.ofList [Scalar.finite 1, Scalar.finite 2]) ⟨0, 2⟩ 50 1 true).2.FinalCost
      = false := by
  decide

/-- C8, amended: for the TINY and the CERES backend the summary of every `Optimize`
call has `Success = true` exactly when `InitialCost > FinalCost`; the EIGEN backend
reports both costs as -1 and, when the tree has coefficients (a solve runs), has
`Success = true` exactly when the solver's status is `ComputationInfo::Success`. -/
theorem C8_success_flag_per_backend (w : Collaborators) (tree : Tree)
    (target : Span) (range : Range) (iterations : Nat) (callCount : Int)
    (writeCoefficients : Bool) :
    ((Optimize OptimizerType.TINY w tree target range iterations callCount
        writeCoefficients).2.Success = true ↔
      Scalar.gt
        (Optimize OptimizerType.TINY w tree target range iterations callCount
          writeCoefficients).2.InitialCost
        (Optimize OptimizerType.TINY w tree target range iterations callCount
          writeCoefficients).2.FinalCost = true) ∧
    ((Optimize OptimizerType.CERES w tree target range iterations callCount
        writeCoefficients).2.Success = true ↔
      Scalar.gt
        (Optimize OptimizerType.CERES w tree target range iterations callCount
          writeCoefficients).2.InitialCost
        (Optimize OptimizerType.CERES w tree target range iterations callCount
          writeCoefficients).2.FinalCost = true) ∧
    (Optimize OptimizerType.EIGEN w tree target range iterations callCount
      writeCoefficients).2.InitialCost = Scalar.finite (-1) ∧
    (Optimize OptimizerType.EIGEN w tree target range iterations callCount
      writeCoefficients).2.FinalCost = Scalar.finite (-1) ∧
    (tree.GetCoefficients ≠ [] →
      ((Optimize OptimizerType.EIGEN w tree target range iterations callCount
          writeCoefficients).2.Success = true ↔
        (w.lmMinimize tree target range (castInt (wrapULong (iterations + 1))) callCount
          tree.GetCoefficients).info = ComputationInfo.Success)) := by
  refine ⟨?_, ?_, ?_, ?_, ?_⟩
  · simp [Optimize, OptimizeTiny]
  · simp only [Optimize, OptimizeCeres]
    split
    · simp [OptimizerSummary.zero, Scalar.gt]
    · simp
  · simp [Optimize, OptimizeEigen]
  · simp [Optimize, OptimizeEigen]
  · intro h
    have hne : tree.GetCoefficients.isEmpty = false := by
      cases hc : tree.GetCoefficients with
      | nil => exact absurd hc h
      | cons a l => rfl
    simp [Optimize, OptimizeEigen, hne]

/-- C9, refuted as stated: the EIGEN backend with `writeCoefficients = true` changes
the tree's coefficient from 1 to 2 although the reported cost did not decrease
(`InitialCost > FinalCost` is false). -/
theorem C9_coefficients_written_without_cost_decrease :
    (Optimize OptimizerType.EIGEN (Example.collaborators ComputationInfo.NoConvergence)
      Example.tree (Span.ofList [Scalar.finite 1, Scalar.finite 2]) ⟨0, 2⟩ 50 1 true).1.GetCoefficients
      = [Scalar.finite 2] ∧
    Example.tree.GetCoefficients = [Scalar.finite 1] ∧
    Scalar.gt
      (Optimize OptimizerType.EIGEN (Example.collaborators ComputationInfo.NoConvergence)
        Example.tree (Span.ofList [Scalar.finite 1, Scalar.finite 2]) ⟨0, 2⟩ 50 1 true).2.InitialCost
      (Optimize OptimizerType.EIGEN (Example.collaborators ComputationInfo.NoConvergence)
        Example.tree (Span.ofList [Scalar.finite 1, Scalar.finite 2]) ⟨0, 2⟩ 50 1 true).2.FinalCost
      = false := by
  decide

/-- C9, amended: for every backend and every `Optimize` call, the tree's coefficients
after the call differ from those before only if `writeCoefficients` is true and the
tree has at least one coefficient; with `writeCoefficients = false`, or with no
coefficients, the tree is left exactly as it was; and with `writeCoefficients = true`
and at least one coefficient the tree's nodes are kept and its coefficients are the
ones the solver returned (for TINY the first `n` of them, for CERES copied over the
old ones), whatever the costs. -/
theorem C9_coefficients_written_iff_requested (b : OptimizerType) (w : Collaborators)
    (tree : Tree) (target : Span) (range : Range) (iterations : Nat)
    (callCount : Int) (writeCoefficients : Bool) :
    ((Optimize b w tree target range iterations callCount writeCoefficients).1.GetCoefficients
        ≠ tree.GetCoefficients →
      writeCoefficients = true ∧ tree.GetCoefficients ≠ []) ∧
    (writeCoefficients = false →
      (Optimize b w tree target range iterations callCount writeCoefficients).1 = tree) ∧
    (tree.GetCoefficients = [] →
      (Optimize b w tree target range iterations callCount writeCoefficients).1 = tree) ∧
    (writeCoefficients = true → tree.GetCoefficients ≠ [] →
      (Optimize b w tree target range iterations callCount writeCoefficients).1 =
        tree.SetCoefficients
          (match b with
            | OptimizerType.TINY =>
              (w.tinySolve tree target range (castInt iterations)
                tree.GetCoefficients).1.take tree.GetCoefficients.length
            | OptimizerType.EIGEN =>
              (w.lmMinimize tree target range (castInt (wrapULong (iterations + 1)))
                callCount tree.GetCoefficients).x
            | OptimizerType.CERES =>
              copyInto
                (w.ceresSolve tree target range
                  (castInt (wrapULong (iterations + (ULONG_MOD - 1))))
                  tree.GetCoefficients).1
                tree.GetCoefficients)) := by
  have hfalse : writeCoefficients = false →
      (Optimize b w tree target range iterations callCount writeCoefficients).1 = tree := by
    intro h
    subst h
    cases b
    · simp only [Optimize, OptimizeTiny]; split <;> simp
    · simp only [Optimize, OptimizeEigen]; split <;> simp
    · simp only [Optimize, OptimizeCeres]; split <;> simp
  have hempty : tree.GetCoefficients = [] →
      (Optimize b w tree target range iterations callCount writeCoefficients).1 = tree := by
    intro h
    cases b
    · simp [Optimize, OptimizeTiny, h]
    · simp [Optimize, OptimizeEigen, h]
    · simp [Optimize, OptimizeCeres, h]
  refine ⟨?_, hfalse, hempty, ?_⟩
  · intro hne
    constructor
    · cases hw : writeCoefficients with
      | true => rfl
      | false => exact absurd (by rw [hfalse hw]) hne
    · intro h
      exact hne (by rw [hempty h])
  · intro hw h
    subst hw
    have hne : tree.GetCoefficients.isEmpty = false := by
      cases hc : tree.GetCoefficients with
      | nil => exact absurd hc h
      | cons a l => rfl
    cases b
    · simp [Optimize, OptimizeTiny, hne]
    · simp [Optimize, OptimizeEigen, hne]
    · simp [Optimize, OptimizeCeres, hne]

/-- C10, evaluated on the code: on a tree with zero free coefficients the EIGEN backend
leaves the tree unchanged and reports equal costs and zero function and Jacobian
evaluations, but its summary has `Success = true`, where the CERES backend returns
the all-zero summary with `Success = false`. -/
theorem C10_eigen_reports_success_without_coefficients :
    Example.constantTree.GetCoefficients = [] ∧
    (Optimize OptimizerType.EIGEN (Example.collaborators ComputationInfo.NoConvergence)
      Example.constantTree (Span.ofList [Scalar.finite 1, Scalar.finite 2]) ⟨0, 2⟩ 50 1 true)
      = (Example.constantTree,
          { InitialCost := Scalar.finite (-1), FinalCost := Scalar.finite (-1), Iterations := 0,
            FunctionEvaluations := 0, JacobianEvaluations := 0, Success := true }) ∧
    (Optimize OptimizerType.CERES (Example.collaborators ComputationInfo.NoConvergence)
      Example.constantTree (Span.ofList [Scalar.finite 1, Scalar.finite 2]) ⟨0, 2⟩ 50 1 true)
      = (Example.constantTree, OptimizerSummary.zero) := by
  decide

/-! ## Counters and budget -/

theorem intToULong_of_nonneg {i : Int} (h0 : 0 ≤ i) (h : i.toNat < ULONG_MOD) :
    intToULong i = i.toNat := by
  unfold intToULong
  have hi : i = (i.toNat : Int) := (Int.toNat_of_nonneg h0).symm
  have hlt : i < (ULONG_MOD : Int) := by
    rw [hi]; exact_mod_cast h
  rw [Int.emod_eq_of_lt h0 hlt]

theorem addIntToULong_of_nonneg {c : Nat} {i : Int} (h0 : 0 ≤ i)
    (h : c + i.toNat < ULONG_MOD) : addIntToULong c i = c + i.toNat := by
  unfold addIntToULong
  rw [intToULong_of_nonneg h0 (by omega), wrapULong_of_lt h]

/-- The counters after a call of `Evaluator::operator()` that stays in range. -/
theorem Evaluator.call_counters_of_inRange (e : Evaluator) (rng : RandomGenerator)
    (ind : Individual) (buf : List Scalar) (h : e.inRange ind = true) :
    (e.call rng ind buf).self.base.CallCount = e.base.CallCount + 1 ∧
    (e.call rng ind buf).self.base.ResidualEvaluations
      = e.base.ResidualEvaluations + (e.addedSummary ind).FunctionEvaluations.toNat + 1 ∧
    (e.call rng ind buf).self.base.JacobianEvaluations
      = e.base.JacobianEvaluations + (e.addedSummary ind).JacobianEvaluations.toNat := by
  simp only [Evaluator.inRange, Bool.and_eq_true, decide_eq_true_eq] at h
  obtain ⟨⟨⟨⟨hf, hj⟩, hc⟩, hr⟩, hjr⟩ := h
  refine ⟨?_, ?_, ?_⟩
  · simp only [Evaluator.call]
    exact wrapULong_of_lt hc
  · simp only [Evaluator.call, localOptimization]
    by_cases hit : 0 < e.base.LocalOptimizationIterations
    · simp only [Evaluator.addedSummary, hit, if_true, Evaluator.optimizerRun] at hf hr ⊢
      rw [addIntToULong_of_nonneg hf (by omega), wrapULong_of_lt hr]
    · simp only [Evaluator.addedSummary, hit, if_false, OptimizerSummary.zero] at hr ⊢
      simp only [Int.toNat_zero, Nat.add_zero] at hr ⊢
      exact wrapULong_of_lt hr
  · simp only [Evaluator.call, localOptimization]
    by_cases hit : 0 < e.base.LocalOptimizationIterations
    · simp only [Evaluator.addedSummary, hit, if_true, Evaluator.optimizerRun] at hj hjr ⊢
      rw [addIntToULong_of_nonneg hj hjr]
    · simp only [Evaluator.addedSummary, hit, if_false, OptimizerSummary.zero]
      simp

/-- The counters after a call of `UserDefinedEvaluator::operator()`. -/
theorem UserDefinedEvaluator.user_call_counters (u : UserDefinedEvaluator) (rng : RandomGenerator)
    (ind : Individual) (buf : List Scalar) :
    (u.call rng ind buf).self.base.CallCount = wrapULong (u.base.CallCount + 1) ∧
    (u.call rng ind buf).self.base.ResidualEvaluations = u.base.ResidualEvaluations ∧
    (u.call rng ind buf).self.base.JacobianEvaluations = u.base.JacobianEvaluations ∧
    (u.call rng ind buf).self.base.budget_ = u.base.budget_ := by
  simp [UserDefinedEvaluator.call]

theorem EvaluatorObject.virtual_call_countersLe (ev : EvaluatorObject) (rng : RandomGenerator)
    (ind : Individual) (buf : List Scalar) (h : ev.inRange ind = true) :
    ev.base.countersLe (ev.call rng ind buf).self.base := by
  cases ev with
  | evaluator e =>
    obtain ⟨h1, h2, h3⟩ := e.call_counters_of_inRange rng ind buf h
    simp only [EvaluatorObject.call, EvaluatorObject.base, EvaluatorBase.countersLe]
    omega
  | userDefined u =>
    obtain ⟨h1, h2, h3, _⟩ := u.user_call_counters rng ind buf
    simp only [EvaluatorObject.inRange, UserDefinedEvaluator.inRange, decide_eq_true_eq] at h
    rw [wrapULong_of_lt h] at h1
    simp only [EvaluatorObject.call, EvaluatorObject.base, EvaluatorBase.countersLe]
    omega
  | diversity d =>
    simp [EvaluatorObject.call, EvaluatorObject.base, EvaluatorBase.countersLe,
      DiversityEvaluator.call]

theorem EvaluatorBase.countersLe_refl (a : EvaluatorBase) : a.countersLe a :=
  ⟨Nat.le_refl _, Nat.le_refl _, Nat.le_refl _⟩

theorem EvaluatorBase.countersLe_trans {a b c : EvaluatorBase} (h1 : a.countersLe b)
    (h2 : b.countersLe c) : a.countersLe c :=
  ⟨Nat.le_trans h1.1 h2.1, Nat.le_trans h1.2.1 h2.2.1, Nat.le_trans h1.2.2 h2.2.2⟩

/-- A call of a sub-evaluator that stays in range lowers no counter of any object. -/
theorem Heap.set_call_countersLe (heap : Heap) (ev : EvaluatorRef) (rng : RandomGenerator)
    (ind : Individual) (buf : List Scalar) (h : (heap ev).inRange ind = true)
    (a : EvaluatorRef) :
    (heap a).base.countersLe
      (Heap.set heap ev ((heap ev).call rng ind buf).self a).base := by
  by_cases ha : a = ev
  · subst ha
    rw [Heap.set_same]
    exact (heap a).virtual_call_countersLe rng ind buf h
  · rw [Heap.set_other _ _ _ _ ha]
    exact EvaluatorBase.countersLe_refl _

/-- The calls of the sub-evaluators, all in range, lower no counter of any object. -/
theorem heapAfter_countersLe (evs : List EvaluatorRef) (heap : Heap) (rng : RandomGenerator)
    (ind : Individual) (buf : List Scalar)
    (h : subCallsInRange evs heap rng ind buf = true) (a : EvaluatorRef) :
    (heap a).base.countersLe (heapAfter evs heap rng ind buf a).base := by
  induction evs generalizing heap rng ind buf with
  | nil => exact EvaluatorBase.countersLe_refl _
  | cons ev rest ih =>
    simp only [subCallsInRange, Bool.and_eq_true] at h
    simp only [heapAfter]
    exact EvaluatorBase.countersLe_trans (Heap.set_call_countersLe heap ev rng ind buf h.1 a)
      (ih _ _ _ _ h.2)

/-- The sum of the values of a counter read right after each sub-evaluator's call lies
between the sums of that counter over the registered sub-evaluators before and after
the calls. -/
theorem subCalls_sums_bounds (evs : List EvaluatorRef) (heap : Heap) (rng : RandomGenerator)
    (ind : Individual) (buf : List Scalar)
    (h : subCallsInRange evs heap rng ind buf = true) :
    (sumResidual heap evs
        ≤ ((subCalls evs heap rng ind buf).map fun r => r.self.base.ResidualEvaluations).sum ∧
      ((subCalls evs heap rng ind buf).map fun r => r.self.base.ResidualEvaluations).sum
        ≤ sumResidual (heapAfter evs heap rng ind buf) evs) ∧
    (sumJacobian heap evs
        ≤ ((subCalls evs heap rng ind buf).map fun r => r.self.base.JacobianEvaluations).sum ∧
      ((subCalls evs heap rng ind buf).map fun r => r.self.base.JacobianEvaluations).sum
        ≤ sumJacobian (heapAfter evs heap rng ind buf) evs) ∧
    (sumCalls heap evs
        ≤ ((subCalls evs heap rng ind buf).map fun r => r.self.base.CallCount).sum ∧
      ((subCalls evs heap rng ind buf).map fun r => r.self.base.CallCount).sum
        ≤ sumCalls (heapAfter evs heap rng ind buf) evs) := by
  induction evs generalizing heap rng ind buf with
  | nil => simp [subCalls, sumResidual, sumJacobian, sumCalls]
  | cons ev rest ih =>
    simp only [subCallsInRange, Bool.and_eq_true] at h
    obtain ⟨⟨r1, r2⟩, ⟨j1, j2⟩, ⟨c1, c2⟩⟩ := ih _ _ _ _ h.2
    have hstep := Heap.set_call_countersLe heap ev rng ind buf h.1
    have hrest := heapAfter_countersLe rest
      (Heap.set heap ev ((heap ev).call rng ind buf).self)
      ((heap ev).call rng ind buf).rng ((heap ev).call rng ind buf).ind
      ((heap ev).call rng ind buf).buf h.2 ev
    rw [Heap.set_same] at hrest
    have hself := hstep ev
    rw [Heap.set_same] at hself
    have sr : sumResidual heap rest
        ≤ sumResidual (Heap.set heap ev ((heap ev).call rng ind buf).self) rest :=
      List.sum_le_sum fun a _ => (hstep a).1
    have sj : sumJacobian heap rest
        ≤ sumJacobian (Heap.set heap ev ((heap ev).call rng ind buf).self) rest :=
      List.sum_le_sum fun a _ => (hstep a).2.1
    have sc : sumCalls heap rest
        ≤ sumCalls (Heap.set heap ev ((heap ev).call rng ind buf).self) rest :=
      List.sum_le_sum fun a _ => (hstep a).2.2
    obtain ⟨s1, s2, s3⟩ := hself
    obtain ⟨t1, t2, t3⟩ := hrest
    simp only [sumResidual, sumJacobian, sumCalls, subCalls, heapAfter, List.map_cons,
      List.sum_cons] at r1 r2 j1 j2 c1 c2 sr sj sc ⊢
    refine ⟨⟨?_, ?_⟩, ⟨?_, ?_⟩, ⟨?_, ?_⟩⟩ <;> omega

/-- A multi-evaluator built by the constructor and `Add` is consistent. -/
theorem MultiEvaluator.consistent_of_add (problem : Problem) (evs : List EvaluatorRef)
    (heap : Heap) :
    (evs.foldl MultiEvaluator.Add (MultiEvaluator.create problem)).Consistent heap := by
  have h : ∀ (l : List EvaluatorRef) (m : MultiEvaluator),
      (l.foldl MultiEvaluator.Add m).base = m.base := by
    intro l
    induction l with
    | nil => intro m; rfl
    | cons ev rest ih => intro m; rw [List.foldl_cons, ih]; rfl
  simp [MultiEvaluator.Consistent, h, MultiEvaluator.create, EvaluatorBase.create]

/-- The counters of a consistent multi-evaluator do not decrease over a call that stays
in range, and the multi-evaluator is consistent afterwards. -/
theorem MultiEvaluator.multi_call_countersLe (m : MultiEvaluator) (heap : Heap)
    (rng : RandomGenerator) (ind : Individual) (buf : List Scalar)
    (hm : m.inRange heap rng ind buf = true) (hc : m.Consistent heap) :
    m.base.countersLe (m.call heap rng ind buf).self.base ∧
    (m.call heap rng ind buf).self.Consistent (m.call heap rng ind buf).heap := by
  simp only [MultiEvaluator.inRange, Bool.and_eq_true, decide_eq_true_eq] at hm
  obtain ⟨⟨⟨hsub, hr⟩, hj⟩, hcc⟩ := hm
  obtain ⟨h0, hh, h1, h2, h3, _⟩ := m.call_self heap rng ind buf
  obtain ⟨⟨r1, r2⟩, ⟨j1, j2⟩, ⟨c1, c2⟩⟩ := subCalls_sums_bounds m.evaluators_ heap rng ind buf hsub
  rw [← hh] at r2 j2 c2
  rw [wrapULong_of_lt (by omega)] at h1 h2 h3
  obtain ⟨k1, k2, k3⟩ := hc
  refine ⟨⟨?_, ?_, ?_⟩, ⟨?_, ?_, ?_⟩⟩
  · omega
  · omega
  · omega
  · rw [h0]; omega
  · rw [h0]; omega
  · rw [h0]; omega

/-- C6: over an invocation the counters `CallCount`, `ResidualEvaluations` and
`JacobianEvaluations` of an `Evaluator`, of a `UserDefinedEvaluator` and of a
`MultiEvaluator` do not decrease, nor do those of any sub-evaluator over the
invocation of the multi-evaluator. The invocation stays in the range of the 64-bit
counters and the optimizer reports non-negative evaluation counts (`inRange`); the
multi-evaluator's counters are those of a new or reset one or of its last
invocation (`Consistent`), which is again so after the invocation, hence along every
sequence of invocations without `Reset`. -/
theorem C6_counters_non_decreasing (e : Evaluator) (u : UserDefinedEvaluator)
    (m : MultiEvaluator) (heap : Heap) (rng : RandomGenerator) (ind : Individual)
    (buf : List Scalar)
    (he : e.inRange ind = true) (hu : u.inRange = true)
    (hm : m.inRange heap rng ind buf = true) (hc : m.Consistent heap) :
    e.base.countersLe (e.call rng ind buf).self.base ∧
    u.base.countersLe (u.call rng ind buf).self.base ∧
    m.base.countersLe (m.call heap rng ind buf).self.base ∧
    (m.call heap rng ind buf).self.Consistent (m.call heap rng ind buf).heap ∧
    (∀ a : EvaluatorRef,
      (heap a).base.countersLe ((m.call heap rng ind buf).heap a).base) := by
  refine ⟨(EvaluatorObject.evaluator e).virtual_call_countersLe rng ind buf he,
    (EvaluatorObject.userDefined u).virtual_call_countersLe rng ind buf hu,
    (m.multi_call_countersLe heap rng ind buf hm hc).1,
    (m.multi_call_countersLe heap rng ind buf hm hc).2, ?_⟩
  intro a
  rw [(m.call_self heap rng ind buf).2.1]
  simp only [MultiEvaluator.inRange, Bool.and_eq_true] at hm
  exact heapAfter_countersLe m.evaluators_ heap rng ind buf hm.1.1.1 a

/-- C6 at the second invocation of the error evaluator (its counters go from 1, 5, 3
to 2, 10, 6), of the length evaluator (its call count goes from 1 to 2) and of the
multi-evaluator of the two (its counters go from 2, 5, 3 to 4, 10, 6). -/
theorem C6_counters_non_decreasing_witness :
    (Example.usedEvaluator.base.countersLe
        (Example.usedEvaluator.call 0 Example.individual []).self.base ∧
      Example.usedLength.base.countersLe
        (Example.usedLength.call 0 Example.individual []).self.base ∧
      Example.usedMulti.base.countersLe
        (Example.usedMulti.call Example.usedHeap 0 Example.individual []).self.base ∧
      (Example.usedMulti.call Example.usedHeap 0 Example.individual []).self.Consistent
        (Example.usedMulti.call Example.usedHeap 0 Example.individual []).heap ∧
      (∀ a : EvaluatorRef, (Example.usedHeap a).base.countersLe
        ((Example.usedMulti.call Example.usedHeap 0 Example.individual []).heap a).base)) ∧
    (Example.usedEvaluator.base.CallCount, Example.usedEvaluator.base.ResidualEvaluations,
      Example.usedEvaluator.base.JacobianEvaluations) = (1, 5, 3) ∧
    ((Example.usedEvaluator.call 0 Example.individual []).self.base.CallCount,
      (Example.usedEvaluator.call 0 Example.individual []).self.base.ResidualEvaluations,
      (Example.usedEvaluator.call 0 Example.individual []).self.base.JacobianEvaluations)
      = (2, 10, 6) ∧
    Example.usedLength.base.CallCount = 1 ∧
    (Example.usedLength.call 0 Example.individual []).self.base.CallCount = 2 ∧
    (Example.usedMulti.base.CallCount, Example.usedMulti.base.ResidualEvaluations,
      Example.usedMulti.base.JacobianEvaluations) = (2, 5, 3) ∧
    ((Example.usedMulti.call Example.usedHeap 0 Example.individual []).self.base.CallCount,
      (Example.usedMulti.call Example.usedHeap 0 Example.individual
        []).self.base.ResidualEvaluations,
      (Example.usedMulti.call Example.usedHeap 0 Example.individual
        []).self.base.JacobianEvaluations) = (4, 10, 6) :=
  ⟨C6_counters_non_decreasing Example.usedEvaluator Example.usedLength Example.usedMulti
      Example.usedHeap 0 Example.individual [] (by decide) (by decide) (by decide)
      ⟨by decide, by decide, by decide⟩,
    by decide, by decide, by decide, by decide, by decide, by decide⟩

theorem EvaluatorBase.budgetExhausted_mono {a b : EvaluatorBase} (h : a.countersLe b)
    (hb : b.totalInRange = true) (hbud : b.budget_ = a.budget_)
    (hx : a.BudgetExhausted = true) : b.BudgetExhausted = true := by
  simp only [EvaluatorBase.totalInRange, decide_eq_true_eq] at hb
  obtain ⟨h1, h2, _⟩ := h
  simp only [EvaluatorBase.BudgetExhausted, EvaluatorBase.TotalEvaluations,
    EvaluatorBase.Budget, decide_eq_true_eq, ge_iff_le] at hx ⊢
  rw [wrapULong_of_lt (by omega)] at hx
  rw [wrapULong_of_lt hb, hbud]
  omega

/-- C7: `BudgetExhausted()` is true exactly when `ResidualEvaluations +
JacobianEvaluations >= Budget()`, whatever the call count; and over an invocation of
an `Evaluator`, a `UserDefinedEvaluator` or a `MultiEvaluator` the budget is kept and
`BudgetExhausted()`, once true, stays true. The sums of the two counters are in the
range of `unsigned long`, and the invocations are as in C6. -/
theorem C7_budget_exhausted_monotonic (b : EvaluatorBase) (callCount : Nat)
    (e : Evaluator) (u : UserDefinedEvaluator) (m : MultiEvaluator) (heap : Heap)
    (rng : RandomGenerator) (ind : Individual) (buf : List Scalar)
    (hb : b.totalInRange = true)
    (he : e.inRange ind = true)
    (het : (e.call rng ind buf).self.base.totalInRange = true)
    (hm : m.inRange heap rng ind buf = true) (hc : m.Consistent heap)
    (hmt : (m.call heap rng ind buf).self.base.totalInRange = true) :
    (b.BudgetExhausted = true ↔
      b.ResidualEvaluations + b.JacobianEvaluations ≥ b.Budget) ∧
    ({ b with CallCount := callCount } : EvaluatorBase).BudgetExhausted
      = b.BudgetExhausted ∧
    ((e.call rng ind buf).self.base.Budget = e.base.Budget ∧
      (e.base.BudgetExhausted = true →
        (e.call rng ind buf).self.base.BudgetExhausted = true)) ∧
    ((u.call rng ind buf).self.base.Budget = u.base.Budget ∧
      (u.base.BudgetExhausted = true →
        (u.call rng ind buf).self.base.BudgetExhausted = true)) ∧
    ((m.call heap rng ind buf).self.base.Budget = m.base.Budget ∧
      (m.base.BudgetExhausted = true →
        (m.call heap rng ind buf).self.base.BudgetExhausted = true)) := by
  refine ⟨?_, ?_, ⟨?_, ?_⟩, ⟨?_, ?_⟩, ⟨?_, ?_⟩⟩
  · simp only [EvaluatorBase.totalInRange, decide_eq_true_eq] at hb
    simp [EvaluatorBase.BudgetExhausted, EvaluatorBase.TotalEvaluations,
      wrapULong_of_lt hb]
  · rfl
  · simp [Evaluator.call, EvaluatorBase.Budget]
  · exact EvaluatorBase.budgetExhausted_mono
      ((EvaluatorObject.evaluator e).virtual_call_countersLe rng ind buf he) het
      (by simp [Evaluator.call])
  · simp [UserDefinedEvaluator.call, EvaluatorBase.Budget]
  · intro hx
    simpa [UserDefinedEvaluator.call, EvaluatorBase.BudgetExhausted,
      EvaluatorBase.TotalEvaluations, EvaluatorBase.Budget] using hx
  · simp [MultiEvaluator.call, EvaluatorBase.Budget]
  · exact EvaluatorBase.budgetExhausted_mono
      (m.multi_call_countersLe heap rng ind buf hm hc).1 hmt (by simp [MultiEvaluator.call])

/-- C7 at evaluators whose budget is reached before the invocation: the error
evaluator with 5 residual and 3 Jacobian evaluations and the budget 8, the length
evaluator with the counters 2 and 1 and the budget 3, and the multi-evaluator of the
two with the counters 5 and 3 and the budget 8. Each is exhausted before its
invocation and after it; the call count 1 or 5 makes no difference; the new error
evaluator with the default budget is not exhausted. -/
theorem C7_budget_exhausted_monotonic_witness :
    ((Example.spentEvaluator.base.BudgetExhausted = true ↔
        Example.spentEvaluator.base.ResidualEvaluations +
          Example.spentEvaluator.base.JacobianEvaluations ≥
        Example.spentEvaluator.base.Budget) ∧
      ({ Example.spentEvaluator.base with CallCount := 5 } : EvaluatorBase).BudgetExhausted
        = Example.spentEvaluator.base.BudgetExhausted ∧
      ((Example.spentEvaluator.call 0 Example.individual []).self.base.Budget
          = Example.spentEvaluator.base.Budget ∧
        (Example.spentEvaluator.base.BudgetExhausted = true →
          (Example.spentEvaluator.call 0 Example.individual []).self.base.BudgetExhausted
            = true)) ∧
      ((Example.spentLength.call 0 Example.individual []).self.base.Budget
          = Example.spentLength.base.Budget ∧
        (Example.spentLength.base.BudgetExhausted = true →
          (Example.spentLength.call 0 Example.individual []).self.base.BudgetExhausted
            = true)) ∧
      ((Example.spentMulti.call Example.usedHeap 0 Example.individual []).self.base.Budget
          = Example.spentMulti.base.Budget ∧
        (Example.spentMulti.base.BudgetExhausted = true →
          (Example.spentMulti.call Example.usedHeap 0 Example.individual
            []).self.base.BudgetExhausted = true))) ∧
    Example.spentEvaluator.base.BudgetExhausted = true ∧
    (Example.spentEvaluator.call 0 Example.individual []).self.base.BudgetExhausted = true ∧
    Example.spentLength.base.BudgetExhausted = true ∧
    (Example.spentLength.call 0 Example.individual []).self.base.BudgetExhausted = true ∧
    Example.spentMulti.base.BudgetExhausted = true ∧
    (Example.spentMulti.call Example.usedHeap 0 Example.individual
      []).self.base.BudgetExhausted = true ∧
    (Example.evaluator ComputationInfo.NoConvergence).base.BudgetExhausted = false :=
  ⟨C7_budget_exhausted_monotonic Example.spentEvaluator.base 5 Example.spentEvaluator
      Example.spentLength Example.spentMulti Example.usedHeap 0 Example.individual []
      (by decide) (by decide) (by decide) (by decide) ⟨by decide, by decide, by decide⟩
      (by decide),
    by decide, by decide, by decide, by decide, by decide, by decide, by decide⟩

/-! ## Counters of a call with local optimization -/

theorem addIntToULong_cast (c : Nat) (i : Int) :
    ((addIntToULong c i : Nat) : Int) = ((c : Int) + i) % 18446744073709551616 := by
  simp only [addIntToULong, wrapULong, intToULong, ULONG_MOD]
  omega

theorem addIntToULong_succ_cast (c : Nat) (i : Int) :
    ((wrapULong (addIntToULong c i + 1) : Nat) : Int)
      = ((c : Int) + i + 1) % 18446744073709551616 := by
  have := addIntToULong_cast c i
  simp only [wrapULong, ULONG_MOD]
  omega

/-- C11: for every call of `Evaluator::operator()` with a positive number of
local-optimization iterations, `CallCount` increases by 1, `JacobianEvaluations` by
the summary's `JacobianEvaluations`, and `ResidualEvaluations` by the summary's
`FunctionEvaluations` plus 1: so it is in `unsigned long` arithmetic (modulo 2^64)
for every call, and as plain sums for a call that stays in the range of the
counters. -/
theorem C11_counters_after_optimizing_call (e : Evaluator) (rng : RandomGenerator)
    (ind : Individual) (buf : List Scalar) (h : 0 < e.base.LocalOptimizationIterations) :
    (e.call rng ind buf).self.base.CallCount = wrapULong (e.base.CallCount + 1) ∧
    (((e.call rng ind buf).self.base.JacobianEvaluations : Nat) : Int)
      = ((e.base.JacobianEvaluations : Int) + (e.optimizerRun ind).2.JacobianEvaluations)
          % 18446744073709551616 ∧
    (((e.call rng ind buf).self.base.ResidualEvaluations : Nat) : Int)
      = ((e.base.ResidualEvaluations : Int) + (e.optimizerRun ind).2.FunctionEvaluations + 1)
          % 18446744073709551616 ∧
    (e.inRange ind = true →
      (e.call rng ind buf).self.base.CallCount = e.base.CallCount + 1 ∧
      (((e.call rng ind buf).self.base.JacobianEvaluations : Nat) : Int)
        = (e.base.JacobianEvaluations : Int) + (e.optimizerRun ind).2.JacobianEvaluations ∧
      (((e.call rng ind buf).self.base.ResidualEvaluations : Nat) : Int)
        = (e.base.ResidualEvaluations : Int) + (e.optimizerRun ind).2.FunctionEvaluations
            + 1) := by
  refine ⟨?_, ?_, ?_, ?_⟩
  · simp [Evaluator.call]
  · simp only [Evaluator.call, localOptimization, h, if_true, Evaluator.optimizerRun]
    exact addIntToULong_cast _ _
  · simp only [Evaluator.call, localOptimization, h, if_true, Evaluator.optimizerRun]
    exact addIntToULong_succ_cast _ _
  · intro hr
    obtain ⟨h1, h2, h3⟩ := e.call_counters_of_inRange rng ind buf hr
    simp only [Evaluator.inRange, Bool.and_eq_true, decide_eq_true_eq] at hr
    obtain ⟨⟨⟨⟨hf, hj⟩, _⟩, _⟩, _⟩ := hr
    simp only [Evaluator.addedSummary, h, if_true] at h2 h3 hf hj
    refine ⟨h1, ?_, ?_⟩
    · rw [h3]; omega
    · rw [h2]; omega

/-- C11 at the error evaluator with 50 iterations, new, called for a tree with one
coefficient: the solver reports 4 function and 3 Jacobian evaluations. -/
theorem C11_counters_after_optimizing_call_witness :
    ((Example.evaluator ComputationInfo.NoConvergence).call 0
      Example.individual []).self.base.CallCount = 1 ∧
    ((Example.evaluator ComputationInfo.NoConvergence).call 0
      Example.individual []).self.base.JacobianEvaluations = 3 ∧
    ((Example.evaluator ComputationInfo.NoConvergence).call 0
      Example.individual []).self.base.ResidualEvaluations = 5 := by
  obtain ⟨_, _, _, h⟩ := C11_counters_after_optimizing_call
    (Example.evaluator ComputationInfo.NoConvergence) 0 Example.individual [] (by decide)
  obtain ⟨h1, h2, h3⟩ := h (by decide)
  refine ⟨h1, ?_, ?_⟩
  · have e2 : ((Example.evaluator ComputationInfo.NoConvergence).optimizerRun
        Example.individual).2.JacobianEvaluations = 3 := by decide
    have e0 : (Example.evaluator ComputationInfo.NoConvergence).base.JacobianEvaluations = 0 := by
      decide
    rw [e2, e0] at h2
    omega
  · have e2 : ((Example.evaluator ComputationInfo.NoConvergence).optimizerRun
        Example.individual).2.FunctionEvaluations = 4 := by decide
    have e0 : (Example.evaluator ComputationInfo.NoConvergence).base.ResidualEvaluations = 0 := by
      decide
    rw [e2, e0] at h3
    omega

/-! ## The least-squares fit -/

theorem sumScalars_finiteScalars (xs : List ℚ) :
    sumScalars (finiteScalars xs) = Scalar.finite xs.sum := by
  induction xs with
  | nil => rfl
  | cons x rest ih =>
    simp only [finiteScalars, sumScalars, List.map_cons, List.foldr_cons, List.sum_cons] at ih ⊢
    rw [ih]
    rfl

theorem pairRows_finiteScalars (xs ys : List ℚ) (h : xs.length = ys.length) :
    pairRows (finiteScalars xs) (finiteScalars ys)
      = (xs.zip ys).map fun p => (Scalar.finite p.1, Scalar.finite p.2) := by
  induction xs generalizing ys with
  | nil => simp [finiteScalars, pairRows]
  | cons x rest ih =>
    cases ys with
    | nil => simp at h
    | cons y ys' =>
      simp only [List.length_cons, Nat.add_right_cancel_iff] at h
      have := ih ys' h
      simp only [finiteScalars, List.map_cons, pairRows, List.zip_cons_cons] at this ⊢
      rw [this]

theorem Scalar.div_finite_of_ne_zero (a b : ℚ) (h : b ≠ 0) :
    Scalar.div (Scalar.finite a) (Scalar.finite b) = Scalar.finite (a / b) := by
  simp [Scalar.div, h]

/-- The statistics of two finite row-aligned non-empty sequences are their exact
mean, variance and covariance. -/
theorem bivariateAccumulate_finiteScalars (xs ys : List ℚ) (h : xs.length = ys.length)
    (hne : xs ≠ []) :
    bivariateAccumulate (finiteScalars xs) (finiteScalars ys)
      = { mean_x := Scalar.finite (meanQ xs), mean_y := Scalar.finite (meanQ ys),
          variance_x := Scalar.finite (varianceQ xs),
          covariance := Scalar.finite (covarianceQ xs ys) } := by
  have hn : ((xs.length : ℕ) : ℚ) ≠ 0 := by
    have : xs.length ≠ 0 := by
      intro h0
      exact hne (List.length_eq_zero.mp h0)
    exact_mod_cast this
  have hfst : (xs.zip ys).map Prod.fst = xs := List.map_fst_zip _ _ (by omega)
  have hsnd : (xs.zip ys).map Prod.snd = ys := List.map_snd_zip _ _ (by omega)
  have e1 : ((xs.zip ys).map fun p => (Scalar.finite p.1, Scalar.finite p.2)).map Prod.fst
      = finiteScalars xs := by
    rw [List.map_map]
    conv_rhs => rw [← hfst]
    simp [finiteScalars, Function.comp_def]
  have e2 : ((xs.zip ys).map fun p => (Scalar.finite p.1, Scalar.finite p.2)).map Prod.snd
      = finiteScalars ys := by
    rw [List.map_map]
    conv_rhs => rw [← hsnd]
    simp [finiteScalars, Function.comp_def]
  have hmx : meanQ xs = xs.sum / (xs.length : ℚ) := rfl
  have hmy : meanQ ys = ys.sum / (xs.length : ℚ) := by rw [meanQ, h]
  have e3 : (((xs.zip ys).map fun p => (Scalar.finite p.1, Scalar.finite p.2)).map fun r =>
      Scalar.mul (Scalar.sub r.1 (Scalar.finite (xs.sum / (xs.length : ℚ))))
        (Scalar.sub r.1 (Scalar.finite (xs.sum / (xs.length : ℚ)))))
      = finiteScalars (xs.map fun x => (x - meanQ xs) * (x - meanQ xs)) := by
    have hx : (xs.map fun x => (x - meanQ xs) * (x - meanQ xs))
        = ((xs.zip ys).map Prod.fst).map fun x => (x - meanQ xs) * (x - meanQ xs) := by
      rw [hfst]
    rw [hx, List.map_map]
    simp only [finiteScalars, List.map_map]
    apply List.map_congr_left
    intro p _
    simp [Scalar.sub, Scalar.neg, Scalar.add, Scalar.mul, hmx, sub_eq_add_neg]
  have e4 : (((xs.zip ys).map fun p => (Scalar.finite p.1, Scalar.finite p.2)).map fun r =>
      Scalar.mul (Scalar.sub r.1 (Scalar.finite (xs.sum / (xs.length : ℚ))))
        (Scalar.sub r.2 (Scalar.finite (ys.sum / (xs.length : ℚ)))))
      = finiteScalars ((xs.zip ys).map fun p => (p.1 - meanQ xs) * (p.2 - meanQ ys)) := by
    rw [List.map_map]
    simp only [finiteScalars, List.map_map]
    apply List.map_congr_left
    intro p _
    simp [Scalar.sub, Scalar.neg, Scalar.add, Scalar.mul, hmx, hmy, sub_eq_add_neg]
  simp only [bivariateAccumulate, pairRows_finiteScalars xs ys h, e1, e2,
    sumScalars_finiteScalars, Scalar.ofNat]
  have hl : (finiteScalars xs).length = xs.length := by simp [finiteScalars]
  rw [hl]
  simp only [Scalar.div_finite_of_ne_zero _ _ hn, e3, e4, sumScalars_finiteScalars]
  simp [meanQ, varianceQ, covarianceQ, h]

/-- The fit of two finite row-aligned non-empty sequences is the exact least-squares
scale and offset. -/
theorem FitLeastSquaresImpl_finiteScalars (xs ys : List ℚ) (h : xs.length = ys.length)
    (hne : xs ≠ []) :
    FitLeastSquaresImpl (finiteScalars xs) (Span.ofList (finiteScalars ys))
      = (Scalar.finite (fitQ xs ys).1, Scalar.finite (fitQ xs ys).2) := by
  simp only [FitLeastSquaresImpl, Span.ofList, bivariateAccumulate_finiteScalars xs ys h hne,
    fitQ]
  by_cases hv : varianceQ xs = 0
  · by_cases hc : covarianceQ xs ys = 0
    · simp [Scalar.div, Scalar.isfinite, hv, hc, Scalar.mul, Scalar.sub, Scalar.neg,
        Scalar.add, sub_eq_add_neg]
    · by_cases hp : 0 < covarianceQ xs ys
      · simp [Scalar.div, Scalar.isfinite, hv, hc, hp, Scalar.mul, Scalar.sub, Scalar.neg,
          Scalar.add, sub_eq_add_neg]
      · simp [Scalar.div, Scalar.isfinite, hv, hc, hp, Scalar.mul, Scalar.sub, Scalar.neg,
          Scalar.add, sub_eq_add_neg]
  · simp [Scalar.div, Scalar.isfinite, hv, Scalar.mul, Scalar.sub, Scalar.neg,
      Scalar.add, sub_eq_add_neg]

/-- C12: `FitLeastSquares` returns `(a, b)` where `a` is the quotient of the covariance
and the variance of `estimated` when that quotient is finite and 1 otherwise, and
`b = mean(target) - a * mean(estimated)` with that `a`; for finite, equally long,
non-empty sequences the quotient is not finite exactly when the variance is zero, and
`(a, b)` are the exact rationals `fitQ`. -/
theorem C12_fit_is_clamped_quotient (estimated : List Scalar) (target : Span)
    (xs ys : List ℚ)
    (hlen : xs.length = ys.length) (hne : xs ≠ []) :
    FitLeastSquares estimated target =
      ((if (Scalar.div (bivariateAccumulate estimated target.data).covariance
              (bivariateAccumulate estimated target.data).variance_x).isfinite
        then Scalar.div (bivariateAccumulate estimated target.data).covariance
              (bivariateAccumulate estimated target.data).variance_x
        else Scalar.finite 1),
       Scalar.sub (bivariateAccumulate estimated target.data).mean_y
        (Scalar.mul
          (if (Scalar.div (bivariateAccumulate estimated target.data).covariance
                (bivariateAccumulate estimated target.data).variance_x).isfinite
            then Scalar.div (bivariateAccumulate estimated target.data).covariance
                (bivariateAccumulate estimated target.data).variance_x
            else Scalar.finite 1)
          (bivariateAccumulate estimated target.data).mean_x)) ∧
    FitLeastSquares (finiteScalars xs) (Span.ofList (finiteScalars ys)) =
      (Scalar.finite (if varianceQ xs = 0 then 1 else covarianceQ xs ys / varianceQ xs),
       Scalar.finite (meanQ ys -
        (if varianceQ xs = 0 then 1 else covarianceQ xs ys / varianceQ xs) * meanQ xs)) ∧
    ((Scalar.div (bivariateAccumulate (finiteScalars xs) (finiteScalars ys)).covariance
        (bivariateAccumulate (finiteScalars xs) (finiteScalars ys)).variance_x).isfinite
          = true ↔ varianceQ xs ≠ 0) := by
  refine ⟨?_, ?_, ?_⟩
  · simp only [FitLeastSquares, FitLeastSquaresImpl]
    cases (Scalar.div (bivariateAccumulate estimated target.data).covariance
      (bivariateAccumulate estimated target.data).variance_x).isfinite <;> simp
  · rw [FitLeastSquares, FitLeastSquaresImpl_finiteScalars xs ys hlen hne]
    rfl
  · rw [bivariateAccumulate_finiteScalars xs ys hlen hne]
    by_cases hv : varianceQ xs = 0
    · by_cases hc : covarianceQ xs ys = 0
      · simp [Scalar.div, Scalar.isfinite, hv, hc]
      · by_cases hp : 0 < covarianceQ xs ys <;> simp [Scalar.div, Scalar.isfinite, hv, hc, hp]
    · simp [Scalar.div, Scalar.isfinite, hv]

theorem meanQ_example_x : meanQ [1, 2, 3] = 2 := by
  norm_num [meanQ]

theorem meanQ_example_y : meanQ [2, 4, 7] = 13 / 3 := by
  norm_num [meanQ]

theorem varianceQ_example : varianceQ [1, 2, 3] = 2 / 3 := by
  rw [varianceQ, meanQ_example_x]
  norm_num

theorem covarianceQ_example : covarianceQ [1, 2, 3] [2, 4, 7] = 5 / 3 := by
  rw [covarianceQ, meanQ_example_x, meanQ_example_y]
  norm_num

/-- C12 at `estimated = (1, 2, 3)` and `target = (2, 4, 7)`: the fit is
`(5/2, -2/3)`. -/
theorem C12_fit_is_clamped_quotient_witness :
    FitLeastSquares (finiteScalars [1, 2, 3]) (Span.ofList (finiteScalars [2, 4, 7]))
      = (Scalar.finite (5 / 2), Scalar.finite (-2 / 3)) := by
  have h := (C12_fit_is_clamped_quotient [] (Span.ofList []) [1, 2, 3] [2, 4, 7] rfl (by simp)).2.1
  rw [h, varianceQ_example, covarianceQ_example, meanQ_example_x, meanQ_example_y]
  norm_num

/-! ### The fit of an affine image -/

theorem affineQ_length (a0 b0 : ℚ) (t : List ℚ) : (affineQ a0 b0 t).length = t.length := by
  simp [affineQ]

theorem affineQ_sum (a0 b0 : ℚ) (t : List ℚ) :
    (affineQ a0 b0 t).sum = a0 * t.sum + b0 * t.length := by
  induction t with
  | nil => simp [affineQ]
  | cons x rest ih =>
    simp only [affineQ, List.map_cons, List.sum_cons, List.length_cons] at ih ⊢
    rw [ih]
    push_cast
    ring

theorem meanQ_affineQ (a0 b0 : ℚ) (t : List ℚ) (hne : t ≠ []) :
    meanQ (affineQ a0 b0 t) = a0 * meanQ t + b0 := by
  have hn : ((t.length : ℕ) : ℚ) ≠ 0 := by
    have : t.length ≠ 0 := fun h0 => hne (List.length_eq_zero.mp h0)
    exact_mod_cast this
  rw [meanQ, meanQ, affineQ_sum, affineQ_length]
  field_simp

theorem sum_zip_affineQ_right (a0 b0 m : ℚ) (t : List ℚ) :
    ((t.zip (affineQ a0 b0 t)).map fun p => (p.1 - m) * (p.2 - (a0 * m + b0))).sum
      = a0 * (t.map fun x => (x - m) * (x - m)).sum := by
  induction t with
  | nil => simp [affineQ]
  | cons x rest ih =>
    simp only [affineQ, List.map_cons, List.zip_cons_cons, List.sum_cons] at ih ⊢
    rw [ih]
    ring

theorem sum_zip_affineQ_left (a0 b0 m : ℚ) (t : List ℚ) :
    (((affineQ a0 b0 t).zip t).map fun p => (p.1 - (a0 * m + b0)) * (p.2 - m)).sum
      = a0 * (t.map fun x => (x - m) * (x - m)).sum := by
  induction t with
  | nil => simp [affineQ]
  | cons x rest ih =>
    simp only [affineQ, List.map_cons, List.zip_cons_cons, List.sum_cons] at ih ⊢
    rw [ih]
    ring

theorem sum_sq_affineQ (a0 b0 m : ℚ) (t : List ℚ) :
    ((affineQ a0 b0 t).map fun x => (x - (a0 * m + b0)) * (x - (a0 * m + b0))).sum
      = a0 * a0 * (t.map fun x => (x - m) * (x - m)).sum := by
  induction t with
  | nil => simp [affineQ]
  | cons x rest ih =>
    simp only [affineQ, List.map_cons, List.sum_cons] at ih ⊢
    rw [ih]
    ring

theorem covarianceQ_affineQ_right (a0 b0 : ℚ) (t : List ℚ) (hne : t ≠ []) :
    covarianceQ t (affineQ a0 b0 t) = a0 * varianceQ t := by
  rw [covarianceQ, meanQ_affineQ a0 b0 t hne, sum_zip_affineQ_right, varianceQ]
  ring

theorem covarianceQ_affineQ_left (a0 b0 : ℚ) (t : List ℚ) (hne : t ≠ []) :
    covarianceQ (affineQ a0 b0 t) t = a0 * varianceQ t := by
  rw [covarianceQ, meanQ_affineQ a0 b0 t hne, sum_zip_affineQ_left, varianceQ,
    affineQ_length]
  ring

theorem varianceQ_affineQ (a0 b0 : ℚ) (t : List ℚ) (hne : t ≠ []) :
    varianceQ (affineQ a0 b0 t) = a0 * a0 * varianceQ t := by
  rw [varianceQ, meanQ_affineQ a0 b0 t hne, sum_sq_affineQ, varianceQ, affineQ_length]
  ring

theorem ne_nil_of_varianceQ_ne_zero (t : List ℚ) (hv : varianceQ t ≠ 0) : t ≠ [] := by
  intro h
  subst h
  exact hv (by simp [varianceQ])

/-- The exact fit with the affine image as target, and with the affine image as
estimate. -/
theorem fitQ_affineQ (a0 b0 : ℚ) (t : List ℚ) (ha : a0 ≠ 0) (hv : varianceQ t ≠ 0) :
    fitQ t (affineQ a0 b0 t) = (a0, b0) ∧
    fitQ (affineQ a0 b0 t) t = (1 / a0, -b0 / a0) := by
  have hne := ne_nil_of_varianceQ_ne_zero t hv
  have hv2 : a0 * a0 * varianceQ t ≠ 0 := mul_ne_zero (mul_ne_zero ha ha) hv
  constructor
  · simp only [fitQ, hv, if_false, covarianceQ_affineQ_right a0 b0 t hne,
      meanQ_affineQ a0 b0 t hne]
    rw [Prod.mk.injEq]
    constructor
    · field_simp
    · field_simp
  · simp only [fitQ, varianceQ_affineQ a0 b0 t hne, hv2, if_false,
      covarianceQ_affineQ_left a0 b0 t hne, meanQ_affineQ a0 b0 t hne]
    rw [Prod.mk.injEq]
    constructor
    · field_simp
      ring
    · field_simp
      ring

theorem varianceQ_example_target : varianceQ [0, 1] = 1 / 4 := by
  have hm : meanQ [0, 1] = 1 / 2 := by norm_num [meanQ]
  rw [varianceQ, hm]
  norm_num

/-- C13, refuted as stated: for `t = (0, 1)`, `a0 = 2` and `b0 = 1` (so `e = (1, 3)`),
`FitLeastSquares(e, t)` with `estimated = e` and `target = t` returns
`(1/2, -1/2)`, not `(a0, b0) = (2, 1)`. -/
theorem C13_fit_of_affine_image_is_not_identity :
    affineQ 2 1 [0, 1] = [1, 3] ∧
    varianceQ [0, 1] ≠ 0 ∧
    FitLeastSquares (finiteScalars [1, 3]) (Span.ofList (finiteScalars [0, 1]))
      = (Scalar.finite (1 / 2), Scalar.finite (-1 / 2)) ∧
    FitLeastSquares (finiteScalars [1, 3]) (Span.ofList (finiteScalars [0, 1]))
      ≠ (Scalar.finite 2, Scalar.finite 1) := by
  have he : affineQ 2 1 [0, 1] = [1, 3] := by norm_num [affineQ]
  have hv : varianceQ [0, 1] ≠ 0 := by rw [varianceQ_example_target]; norm_num
  have hfit : FitLeastSquares (finiteScalars [1, 3]) (Span.ofList (finiteScalars [0, 1]))
      = (Scalar.finite (1 / 2), Scalar.finite (-1 / 2)) := by
    rw [FitLeastSquares, FitLeastSquaresImpl_finiteScalars [1, 3] [0, 1] rfl (by simp), ← he,
      (fitQ_affineQ 2 1 [0, 1] (by norm_num) hv).2]
  refine ⟨he, hv, hfit, ?_⟩
  rw [hfit]
  intro h
  have h1 := congrArg Prod.fst h
  simp only [Scalar.finite.injEq] at h1
  norm_num at h1

/-- C13, amended: for all `a0 != 0` and `b0` and every sequence `t` with non-zero
variance (hence of at least two values), with `e[i] = a0 * t[i] + b0`:
`FitLeastSquares(t, e)` (`estimated = t`, `target = e`) recovers `(a0, b0)`, and
`FitLeastSquares(e, t)` (`estimated = e`, `target = t`) returns the inverse
transform `(1 / a0, -b0 / a0)`, in exact arithmetic. -/
theorem C13_fit_recovers_affine_transform (a0 b0 : ℚ) (t : List ℚ) (ha : a0 ≠ 0)
    (hv : varianceQ t ≠ 0) :
    2 ≤ t.length ∧
    FitLeastSquares (finiteScalars t) (Span.ofList (finiteScalars (affineQ a0 b0 t)))
      = (Scalar.finite a0, Scalar.finite b0) ∧
    FitLeastSquares (finiteScalars (affineQ a0 b0 t)) (Span.ofList (finiteScalars t))
      = (Scalar.finite (1 / a0), Scalar.finite (-b0 / a0)) := by
  have hne := ne_nil_of_varianceQ_ne_zero t hv
  have hne2 : affineQ a0 b0 t ≠ [] := by
    intro h
    have := congrArg List.length h
    rw [affineQ_length] at this
    exact hne (List.length_eq_zero.mp this)
  obtain ⟨h1, h2⟩ := fitQ_affineQ a0 b0 t ha hv
  refine ⟨?_, ?_, ?_⟩
  · match t, hv with
    | [], hv => exact absurd (by simp [varianceQ]) hv
    | [x], hv => exact absurd (by simp [varianceQ, meanQ]) hv
    | _ :: _ :: _, _ => simp
  · rw [FitLeastSquares,
      FitLeastSquaresImpl_finiteScalars t (affineQ a0 b0 t) (affineQ_length a0 b0 t).symm hne,
      h1]
  · rw [FitLeastSquares,
      FitLeastSquaresImpl_finiteScalars (affineQ a0 b0 t) t (affineQ_length a0 b0 t) hne2, h2]

/-- C13, amended, at `t = (0, 1)`, `a0 = 2`, `b0 = 1`. -/
theorem C13_fit_recovers_affine_transform_witness :
    2 ≤ ([0, 1] : List ℚ).length ∧
    FitLeastSquares (finiteScalars [0, 1]) (Span.ofList (finiteScalars (affineQ 2 1 [0, 1])))
      = (Scalar.finite 2, Scalar.finite 1) ∧
    FitLeastSquares (finiteScalars (affineQ 2 1 [0, 1])) (Span.ofList (finiteScalars [0, 1]))
      = (Scalar.finite (1 / 2), Scalar.finite (-1 / 2)) :=
  C13_fit_recovers_affine_transform 2 1 [0, 1] (by norm_num)
    (by rw [varianceQ_example_target]; norm_num)

/-! ## Linear scaling in the evaluator -/

/-- The score computed by `Evaluator::operator()` in terms of the evaluation buffer
`buf` after `Interpreter::Evaluate`: `metric(a * buf + b, y)` with
`(a, b) = FitLeastSquares(buf, y)` when linear scaling is enabled and `metric(buf, y)`
when it is disabled; the returned fitness is that score, converted to
`Operon::Scalar`, before the replacement of a non-finite value. -/
theorem Evaluator.score_of_evaluated (e : Evaluator) (rng : RandomGenerator)
    (ind : Individual) (buf : List Scalar) (tree : Tree) :
    (computeFitness e tree e.targetValues e.base.problem_.TrainingRange buf).score
      = (if e.scaling_
          then e.error_
            (scaleBy (FitLeastSquares (e.evaluated tree buf) e.targetValues)
              (e.evaluated tree buf))
            e.targetValues
          else e.error_ (e.evaluated tree buf) e.targetValues) ∧
    e.score tree buf
      = e.interpreter_.toScalar
          (if e.scaling_
            then e.error_
              (scaleBy (FitLeastSquares (e.evaluated tree buf) e.targetValues)
                (e.evaluated tree buf))
              e.targetValues
            else e.error_ (e.evaluated tree buf) e.targetValues) ∧
    (e.call rng ind buf).fit =
      [if (e.score (e.call rng ind buf).ind.Genotype buf).isfinite
        then e.score (e.call rng ind buf).ind.Genotype buf
        else Scalar.finite e.interpreter_.ScalarMax] := by
  have h1 : (computeFitness e tree e.targetValues e.base.problem_.TrainingRange buf).score
      = (if e.scaling_
          then e.error_
            (scaleBy (FitLeastSquares (e.evaluated tree buf) e.targetValues)
              (e.evaluated tree buf))
            e.targetValues
          else e.error_ (e.evaluated tree buf) e.targetValues) := by
    simp only [computeFitness, Evaluator.evaluated, scaleBy, FitLeastSquares,
      decide_eq_true_eq]
    cases e.scaling_ <;> simp
  refine ⟨h1, ?_, ?_⟩
  · rw [Evaluator.score, h1]
  · simp only [Evaluator.call, Evaluator.score, List.map_cons, List.map_nil]
    cases h : (e.interpreter_.toScalar (computeFitness e
      (localOptimization e (wrapULong (e.base.CallCount + 1)) ind.Genotype e.targetValues
        e.base.problem_.TrainingRange).1 e.targetValues e.base.problem_.TrainingRange
          buf).score).isfinite <;> simp

/-- For a buffer that is not larger than the training range, and an interpreter that
keeps the length of the buffer it fills, the evaluation buffer holds the predictions
over the training range and nothing else, and the score is `metric(a * p + b, y)`
with `(a, b) = FitLeastSquares(p, y)` when linear scaling is enabled and
`metric(p, y)` when it is disabled. -/
theorem Evaluator.score_of_predictions (e : Evaluator) (tree : Tree) (buf : List Scalar)
    (hkeep : ∀ t r b, (e.interpreter_.Evaluate t r b).length = b.length)
    (hbuf : buf.length ≤ e.base.problem_.TrainingRange.Size) :
    e.evaluated tree buf = e.predictions tree buf ∧
    (e.predictions tree buf).length = e.base.problem_.TrainingRange.Size ∧
    (computeFitness e tree e.targetValues e.base.problem_.TrainingRange buf).score
      = (if e.scaling_
          then e.error_
            (scaleBy (FitLeastSquares (e.predictions tree buf) e.targetValues)
              (e.predictions tree buf))
            e.targetValues
          else e.error_ (e.predictions tree buf) e.targetValues) := by
  have hl : (e.evaluated tree buf).length = e.base.problem_.TrainingRange.Size := by
    simp only [Evaluator.evaluated, hkeep]
    by_cases hlt : buf.length < e.base.problem_.TrainingRange.Size
    · simp [hlt]
    · simp only [hlt, if_false]
      omega
  have hp : e.evaluated tree buf = e.predictions tree buf := by
    rw [Evaluator.predictions, List.take_of_length_le (Nat.le_of_eq hl)]
  refine ⟨hp, by rw [← hp, hl], ?_⟩
  rw [← hp]
  exact (e.score_of_evaluated 0 ⟨tree, []⟩ buf tree).1

/-- C14, evaluated on the code: for a training range of 2 rows with the targets 1, 2
(the next row of the column holds 3), a tree whose predictions are 1, 1, linear scaling
disabled and the sum of squared errors as metric, `metric(p, y)` is 1, and this is the
fitness for a buffer of 2 elements; but for a buffer of 3 elements (8, 8, 9) the
fitness is 37: the metric is given the whole buffer 1, 1, 9 with the stale 9, which it
compares with the 3 of the row after the target slice. With linear scaling the fit of
the whole buffer is `(3/16, 21/16)` where `FitLeastSquares(p, y)` is `(1, 1/2)`. -/
theorem C14_larger_buffer_is_scored_whole :
    Example.evaluatorSquares.scaling_ = false ∧
    Example.evaluatorSquares.targetValues.elements = [Scalar.finite 1, Scalar.finite 2] ∧
    Example.evaluatorSquares.predictions Example.tree
      [Scalar.finite 8, Scalar.finite 8, Scalar.finite 9] = [Scalar.finite 1, Scalar.finite 1] ∧
    Example.evaluatorSquares.error_ [Scalar.finite 1, Scalar.finite 1]
      Example.evaluatorSquares.targetValues = Scalar.finite 1 ∧
    (Example.evaluatorSquares.call 0 Example.individual
      [Scalar.finite 8, Scalar.finite 8]).fit = [Scalar.finite 1] ∧
    Example.evaluatorSquares.evaluated Example.tree
      [Scalar.finite 8, Scalar.finite 8, Scalar.finite 9]
      = [Scalar.finite 1, Scalar.finite 1, Scalar.finite 9] ∧
    (Example.evaluatorSquares.call 0 Example.individual
      [Scalar.finite 8, Scalar.finite 8, Scalar.finite 9]).fit = [Scalar.finite 37] ∧
    FitLeastSquares [Scalar.finite 1, Scalar.finite 1] Example.evaluatorSquares.targetValues
      = (Scalar.finite 1, Scalar.finite (1 / 2)) ∧
    FitLeastSquares [Scalar.finite 1, Scalar.finite 1, Scalar.finite 9]
      Example.evaluatorSquares.targetValues
      = (Scalar.finite (3 / 16), Scalar.finite (21 / 16)) := by
  have htv : Example.evaluatorSquares.targetValues
      = { data := [Scalar.finite 1, Scalar.finite 2, Scalar.finite 3], size := 2 } := by
    decide
  have hs2 : Example.squaredError [Scalar.finite 1, Scalar.finite 1]
      { data := [Scalar.finite 1, Scalar.finite 2, Scalar.finite 3], size := 2 }
      = Scalar.finite 1 := by
    simp only [Example.squaredError, pairRows, sumScalars, List.map_cons, List.map_nil,
      List.foldr_cons, List.foldr_nil, Scalar.sub, Scalar.neg, Scalar.add, Scalar.mul]
    norm_num
  have hs3 : Example.squaredError [Scalar.finite 1, Scalar.finite 1, Scalar.finite 9]
      { data := [Scalar.finite 1, Scalar.finite 2, Scalar.finite 3], size := 2 }
      = Scalar.finite 37 := by
    simp only [Example.squaredError, pairRows, sumScalars, List.map_cons, List.map_nil,
      List.foldr_cons, List.foldr_nil, Scalar.sub, Scalar.neg, Scalar.add, Scalar.mul]
    norm_num
  have he2 : Example.evaluatorSquares.evaluated Example.tree
      [Scalar.finite 8, Scalar.finite 8] = [Scalar.finite 1, Scalar.finite 1] := by
    decide
  have he3 : Example.evaluatorSquares.evaluated Example.tree
      [Scalar.finite 8, Scalar.finite 8, Scalar.finite 9]
      = [Scalar.finite 1, Scalar.finite 1, Scalar.finite 9] := by
    decide
  have hfit : ∀ buf : List Scalar,
      (Example.evaluatorSquares.call 0 Example.individual buf).fit
        = [if (Example.squaredError (Example.evaluatorSquares.evaluated Example.tree buf)
              Example.evaluatorSquares.targetValues).isfinite
          then Example.squaredError (Example.evaluatorSquares.evaluated Example.tree buf)
              Example.evaluatorSquares.targetValues
          else Scalar.finite 1000] := by
    intro buf
    obtain ⟨_, h2, h3⟩ :=
      Example.evaluatorSquares.score_of_evaluated 0 Example.individual buf Example.tree
    have hg : (Example.evaluatorSquares.call 0 Example.individual buf).ind.Genotype
        = Example.tree := by
      simp [Evaluator.call, localOptimization, Example.evaluatorSquares,
        Example.evaluatorInPlace, EvaluatorBase.SetLocalOptimizationIterations,
        EvaluatorBase.LocalOptimizationIterations, Example.individual]
    rw [h3, hg, h2]
    rfl
  refine ⟨by decide, by decide, by decide, ?_, ?_, he3, ?_, ?_, ?_⟩
  · rw [htv]; exact hs2
  · rw [hfit, he2, htv, hs2]; rfl
  · rw [hfit, he3, htv, hs3]; rfl
  · rw [htv]
    simp only [FitLeastSquares, FitLeastSquaresImpl, bivariateAccumulate, pairRows, sumScalars,
      List.map_cons, List.map_nil, List.foldr_cons, List.foldr_nil, List.length_cons,
      List.length_nil, Scalar.ofNat, Scalar.sub, Scalar.neg, Scalar.add, Scalar.mul, Scalar.div,
      Scalar.isfinite]
    norm_num
  · rw [htv]
    simp only [FitLeastSquares, FitLeastSquaresImpl, bivariateAccumulate, pairRows, sumScalars,
      List.map_cons, List.map_nil, List.foldr_cons, List.foldr_nil, List.length_cons,
      List.length_nil, Scalar.ofNat, Scalar.sub, Scalar.neg, Scalar.add, Scalar.mul, Scalar.div,
      Scalar.isfinite]
    norm_num

/-! ## The diversity evaluator -/

theorem lookup_divmapIncrement (m : List (Nat × Nat)) (k h : Nat) :
    ((divmapIncrement m k).lookup h).getD 0
      = (m.lookup h).getD 0 + (if k = h then 1 else 0) := by
  induction m with
  | nil =>
    by_cases hk : k = h
    · subst hk
      simp only [divmapIncrement, List.lookup_cons, List.lookup_nil, beq_self_eq_true]
      simp
    · have : (h == k) = false := by
        simp only [beq_eq_false_iff_ne, ne_eq]
        exact fun e => hk e.symm
      simp only [divmapIncrement, List.lookup_cons, List.lookup_nil, this, hk]
      simp
  | cons p rest ih =>
    obtain ⟨k', c⟩ := p
    by_cases hk' : k' = k
    · subst hk'
      by_cases hh : h = k'
      · subst hh
        simp only [divmapIncrement, List.lookup_cons, beq_self_eq_true, if_true]
        simp
      · have hb : (h == k') = false := by
          simp only [beq_eq_false_iff_ne, ne_eq]
          exact hh
        have : ¬ k' = h := fun e => hh e.symm
        simp only [divmapIncrement, List.lookup_cons, hb, this, if_true, if_false]
        simp
    · by_cases hh : h = k'
      · subst hh
        have : ¬ k = h := fun e => hk' e.symm
        simp only [divmapIncrement, List.lookup_cons, hk', this, if_false, beq_self_eq_true]
        simp
      · have hb : (h == k') = false := by
          simp only [beq_eq_false_iff_ne, ne_eq]
          exact hh
        simp only [divmapIncrement, hk', if_false, List.lookup_cons, hb]
        exact ih

theorem lookup_foldl_divmapIncrement (nodes : List Node) (m : List (Nat × Nat)) (h : Nat) :
    ((nodes.foldl (fun m node => divmapIncrement m node.CalculatedHashValue) m).lookup h).getD 0
      = (m.lookup h).getD 0 + occurrences nodes h := by
  induction nodes generalizing m with
  | nil => simp [occurrences]
  | cons n rest ih =>
    rw [List.foldl_cons, ih, lookup_divmapIncrement]
    by_cases hn : n.CalculatedHashValue = h
    · simp [occurrences, List.countP_cons, hn]; omega
    · simp [occurrences, List.countP_cons, hn]

theorem Scalar.add_ofNat (a b : Nat) :
    Scalar.add (Scalar.ofNat a) (Scalar.ofNat b) = Scalar.ofNat (a + b) := by
  simp [Scalar.add, Scalar.ofNat]

theorem foldl_add_ofNat {α : Type} (f : α → Nat) (xs : List α) (q : Nat) :
    xs.foldl (fun acc x => Scalar.add acc (Scalar.ofNat (f x))) (Scalar.ofNat q)
      = Scalar.ofNat (q + (xs.map f).sum) := by
  induction xs generalizing q with
  | nil => simp
  | cons x rest ih =>
    rw [List.foldl_cons, Scalar.add_ofNat, ih]
    simp [Nat.add_assoc]

theorem occurrences_append (a b : List Node) (h : Nat) :
    occurrences (a ++ b) h = occurrences a h + occurrences b h := by
  simp [occurrences, List.countP_append]

/-- The map and the total that the loop of `Prepare` builds from a map `m` and a total
`q`. -/
theorem prepare_foldl (Hash : HashMode → Tree → Tree) (mode : HashMode)
    (pop : List Individual) (m : List (Nat × Nat)) (q : Nat) :
    (∀ h, (((pop.foldl
        (fun (acc : List (Nat × Nat) × Scalar) ind =>
          ((Hash mode ind.Genotype).Nodes.foldl
              (fun m node => divmapIncrement m node.CalculatedHashValue) acc.1,
            Scalar.add acc.2 (Scalar.ofNat (Hash mode ind.Genotype).Length)))
        (m, Scalar.ofNat q)).1).lookup h).getD 0
      = (m.lookup h).getD 0 + occurrences (hashedNodes Hash mode pop) h) ∧
    (pop.foldl
        (fun (acc : List (Nat × Nat) × Scalar) ind =>
          ((Hash mode ind.Genotype).Nodes.foldl
              (fun m node => divmapIncrement m node.CalculatedHashValue) acc.1,
            Scalar.add acc.2 (Scalar.ofNat (Hash mode ind.Genotype).Length)))
        (m, Scalar.ofNat q)).2
      = Scalar.ofNat (q + (hashedNodes Hash mode pop).length) := by
  induction pop generalizing m q with
  | nil => simp [hashedNodes, occurrences]
  | cons ind rest ih =>
    rw [List.foldl_cons, Scalar.add_ofNat]
    obtain ⟨h1, h2⟩ := ih
      ((Hash mode ind.Genotype).Nodes.foldl
        (fun m node => divmapIncrement m node.CalculatedHashValue) m)
      (q + (Hash mode ind.Genotype).Length)
    constructor
    · intro h
      rw [h1 h, lookup_foldl_divmapIncrement]
      simp only [hashedNodes, List.map_cons, List.flatten_cons, occurrences_append]
      omega
    · rw [h2]
      simp only [hashedNodes, List.map_cons, List.flatten_cons, List.length_append, Tree.Length]
      congr 1
      omega

/-- The state of the diversity evaluator after `Prepare`. -/
theorem DiversityEvaluator.prepare_state (d : DiversityEvaluator)
    (Hash : HashMode → Tree → Tree) (pop : List Individual) :
    (∀ h, ((d.Prepare Hash pop).divmap_.lookup h).getD 0
      = occurrences (hashedNodes Hash d.hashmode_ pop) h) ∧
    (d.Prepare Hash pop).total_ = Scalar.ofNat (hashedNodes Hash d.hashmode_ pop).length ∧
    (d.Prepare Hash pop).toScalar = d.toScalar ∧
    (d.Prepare Hash pop).hashmode_ = d.hashmode_ := by
  obtain ⟨h1, h2⟩ := prepare_foldl Hash d.hashmode_ pop [] 0
  have z : Scalar.ofNat 0 = Scalar.finite 0 := by simp [Scalar.ofNat]
  rw [z] at h1 h2
  refine ⟨?_, ?_, rfl, rfl⟩
  · intro h
    have := h1 h
    simpa [DiversityEvaluator.Prepare] using this
  · simpa [DiversityEvaluator.Prepare] using h2

/-- C15: after `Prepare(pop)` the diversity score that `operator()` returns for an
individual is the sum, over the individual's own nodes, of the number of occurrences
of the node's hash among all nodes of all individuals of `pop` (0 for a hash absent
from `pop`), divided by the total number of nodes of `pop` (converted to
`Operon::Scalar`); with an exact conversion and at least one node in `pop` it is the
rational quotient of the two. -/
theorem C15_diversity_score_after_prepare (d : DiversityEvaluator)
    (Hash : HashMode → Tree → Tree) (pop : List Individual) (rng : RandomGenerator)
    (ind : Individual) (buf : List Scalar) :
    ((d.Prepare Hash pop).call rng ind buf).fit =
      [Scalar.div
        (Scalar.ofNat (sharedOccurrences (hashedNodes Hash d.hashmode_ pop) ind))
        (d.toScalar (Scalar.ofNat (hashedNodes Hash d.hashmode_ pop).length))] ∧
    (hashedNodes Hash d.hashmode_ pop).length
      = (pop.map fun i => (Hash d.hashmode_ i.Genotype).Length).sum ∧
    (d.toScalar (Scalar.ofNat (hashedNodes Hash d.hashmode_ pop).length)
        = Scalar.ofNat (hashedNodes Hash d.hashmode_ pop).length →
      (hashedNodes Hash d.hashmode_ pop).length ≠ 0 →
      ((d.Prepare Hash pop).call rng ind buf).fit =
        [Scalar.finite
          ((sharedOccurrences (hashedNodes Hash d.hashmode_ pop) ind : ℚ) /
            ((hashedNodes Hash d.hashmode_ pop).length : ℚ))]) := by
  obtain ⟨h1, h2, h3, _⟩ := d.prepare_state Hash pop
  have hfit : ((d.Prepare Hash pop).call rng ind buf).fit =
      [Scalar.div
        (Scalar.ofNat (sharedOccurrences (hashedNodes Hash d.hashmode_ pop) ind))
        (d.toScalar (Scalar.ofNat (hashedNodes Hash d.hashmode_ pop).length))] := by
    have z : Scalar.finite 0 = Scalar.ofNat 0 := by simp [Scalar.ofNat]
    simp only [DiversityEvaluator.call, h2, h3]
    rw [z, foldl_add_ofNat]
    simp only [h1, sharedOccurrences, Nat.zero_add]
  refine ⟨hfit, ?_, ?_⟩
  · simp [hashedNodes, List.length_flatten, Tree.Length, Function.comp_def]
  · intro hcast hne
    rw [hfit, hcast]
    have : ((hashedNodes Hash d.hashmode_ pop).length : ℚ) ≠ 0 := by exact_mod_cast hne
    simp [Scalar.ofNat, Scalar.div, this]

/-- C16: `Prepare` rebuilds its state: the map, the total and so every score after
`Prepare(p1)` followed by `Prepare(p2)` are those after `Prepare(p2)` alone. -/
theorem C16_prepare_rebuilds_state (d : DiversityEvaluator) (Hash : HashMode → Tree → Tree)
    (p1 p2 : List Individual) :
    ((d.Prepare Hash p1).Prepare Hash p2).divmap_ = (d.Prepare Hash p2).divmap_ ∧
    ((d.Prepare Hash p1).Prepare Hash p2).total_ = (d.Prepare Hash p2).total_ ∧
    (∀ (rng : RandomGenerator) (ind : Individual) (buf : List Scalar),
      (((d.Prepare Hash p1).Prepare Hash p2).call rng ind buf).fit
        = ((d.Prepare Hash p2).call rng ind buf).fit) ∧
    (∀ h, (((d.Prepare Hash p1).Prepare Hash p2).divmap_.lookup h).getD 0
      = occurrences (hashedNodes Hash d.hashmode_ p2) h) ∧
    ((d.Prepare Hash p1).Prepare Hash p2).total_
      = Scalar.ofNat (hashedNodes Hash d.hashmode_ p2).length := by
  have e : (d.Prepare Hash p1).Prepare Hash p2 = d.Prepare Hash p2 := rfl
  obtain ⟨h1, h2, _, _⟩ := d.prepare_state Hash p2
  rw [e]
  exact ⟨rfl, rfl, fun _ _ _ => rfl, h1, h2⟩

/-! ## The best individual -/

theorem Scalar.le_refl_of_ne_nan {a : Scalar} (h : a ≠ Scalar.nan) : Scalar.le a a = true := by
  cases a <;> simp_all [Scalar.le]

theorem Scalar.le_of_not_lt {a b : Scalar} (ha : a ≠ Scalar.nan) (hb : b ≠ Scalar.nan)
    (h : Scalar.lt a b = false) : Scalar.le b a = true := by
  cases a <;> cases b <;> simp_all [Scalar.le, Scalar.lt, Scalar.gt]

theorem Scalar.lt_le_trans_true {a b c : Scalar} (h1 : Scalar.lt a b = true)
    (h2 : Scalar.le b c = true) : Scalar.lt a c = true := by
  cases a <;> cases b <;> cases c <;> simp_all [Scalar.le, Scalar.lt, Scalar.gt]
  exact lt_of_lt_of_le h1 h2

theorem Scalar.le_of_lt_true {a b : Scalar} (h1 : Scalar.lt a b = true) : Scalar.le a b = true := by
  cases a <;> cases b <;> simp_all [Scalar.le, Scalar.lt, Scalar.gt]
  exact le_of_lt h1

theorem Scalar.le_trans_true {a b c : Scalar} (h1 : Scalar.le a b = true)
    (h2 : Scalar.le b c = true) : Scalar.le a c = true := by
  cases a <;> cases b <;> cases c <;> simp_all [Scalar.le]
  exact le_trans h1 h2

theorem minElementLoop_spec {α : Type} (key : α → Scalar) (rest pre : List α) (si : Nat) (s : α)
    (hs : pre[si]? = some s) (hnan : ∀ x ∈ pre ++ rest, key x ≠ Scalar.nan)
    (hle : ∀ x ∈ pre, Scalar.le (key s) (key x) = true)
    (hlt : ∀ j < si, ∀ x, pre[j]? = some x → Scalar.lt (key s) (key x) = true) :
    (pre ++ rest)[(minElementLoop (fun l r => Scalar.lt (key l) (key r)) si s pre.length rest).1]?
      = some (minElementLoop (fun l r => Scalar.lt (key l) (key r)) si s pre.length rest).2 ∧
    (∀ x ∈ pre ++ rest, Scalar.le
      (key (minElementLoop (fun l r => Scalar.lt (key l) (key r)) si s pre.length rest).2)
      (key x) = true) ∧
    (∀ j < (minElementLoop (fun l r => Scalar.lt (key l) (key r)) si s pre.length rest).1,
      ∀ x, (pre ++ rest)[j]? = some x → Scalar.lt
        (key (minElementLoop (fun l r => Scalar.lt (key l) (key r)) si s pre.length rest).2)
        (key x) = true) := by
  induction rest generalizing pre si s with
  | nil =>
    simp only [minElementLoop, List.append_nil]
    exact ⟨hs, hle, hlt⟩
  | cons x rest ih =>
    have hsi : si < pre.length := by
      by_contra hc
      rw [List.getElem?_eq_none (by omega)] at hs
      cases hs
    have happ : pre ++ x :: rest = (pre ++ [x]) ++ rest := by simp
    have hlen : (pre ++ [x]).length = pre.length + 1 := by simp
    have hxn : key x ≠ Scalar.nan := hnan x (by simp)
    have hsn : key s ≠ Scalar.nan := hnan s (by
      have := List.getElem?_mem hs
      exact List.mem_append_left _ this)
    simp only [minElementLoop]
    by_cases hc : Scalar.lt (key x) (key s) = true
    · simp only [hc, if_true]
      rw [happ, ← hlen]
      apply ih
      · simp
      · rw [← happ]; exact hnan
      · intro y hy
        rw [List.mem_append, List.mem_singleton] at hy
        rcases hy with hy | hy
        · exact Scalar.le_of_lt_true (Scalar.lt_le_trans_true hc (hle y hy))
        · subst hy; exact Scalar.le_refl_of_ne_nan hxn
      · intro j hj y hy
        rw [List.getElem?_append_left hj] at hy
        exact Scalar.lt_le_trans_true hc (hle y (List.getElem?_mem hy))
    · have hc' : Scalar.lt (key x) (key s) = false := by simpa using hc
      simp only [hc', Bool.false_eq_true, if_false]
      rw [happ, ← hlen]
      apply ih
      · rw [List.getElem?_append_left hsi]; exact hs
      · rw [← happ]; exact hnan
      · intro y hy
        rw [List.mem_append, List.mem_singleton] at hy
        rcases hy with hy | hy
        · exact hle y hy
        · subst hy; exact Scalar.le_of_not_lt hxn hsn hc'
      · intro j hj y hy
        rw [List.getElem?_append_left (by omega)] at hy
        exact hlt j hj y hy

/-- C17: for a non-empty population whose objective-0 values are numbers (not NaN, as
for every evaluated individual), `getBest` returns an individual of the population
whose objective 0 is less than or equal to that of every individual, and every
individual before it in population order has a strictly greater objective 0: it is
the first that attains the minimum. -/
theorem C17_get_best_is_first_minimum (pop : List Individual) (hne : pop ≠ [])
    (hnan : ∀ ind ∈ pop, ind.objective 0 ≠ Scalar.nan) :
    ∃ (best : Individual) (i : Nat),
      getBest pop = some best ∧ getBestPosition pop = some i ∧ pop[i]? = some best ∧
      (∀ ind ∈ pop, Scalar.le (best.objective 0) (ind.objective 0) = true) ∧
      (∀ j < i, ∀ ind, pop[j]? = some ind →
        Scalar.lt (best.objective 0) (ind.objective 0) = true) := by
  cases pop with
  | nil => exact absurd rfl hne
  | cons x rest =>
    have h := minElementLoop_spec (fun ind : Individual => ind.objective 0) rest [x] 0 x
      (by simp) (by simpa using hnan)
      (by
        intro y hy
        rw [List.mem_singleton] at hy
        subst hy
        exact Scalar.le_refl_of_ne_nan (hnan _ (by simp)))
      (by intro j hj; omega)
    simp only [List.length_singleton, List.singleton_append] at h
    exact ⟨_, _, rfl, rfl, h.1, h.2.1, h.2.2⟩

/-- C17 at a population with objective-0 values 3, 1, 2, 1. -/
theorem C17_get_best_is_first_minimum_witness :
    ∃ (best : Individual) (i : Nat),
      getBest Example.population = some best ∧ getBestPosition Example.population = some i ∧
      Example.population[i]? = some best ∧
      (∀ ind ∈ Example.population, Scalar.le (best.objective 0) (ind.objective 0) = true) ∧
      (∀ j < i, ∀ ind, Example.population[j]? = some ind →
        Scalar.lt (best.objective 0) (ind.objective 0) = true) :=
  C17_get_best_is_first_minimum Example.population (by simp [Example.population])
    (by simp [Example.population, Example.withFitness, Individual.objective])

/-! ## Non-dominated sorting -/

theorem Scalar.lt_irrefl_false (a : Scalar) : Scalar.lt a a = false := by
  cases a <;> simp [Scalar.lt, Scalar.gt]

theorem dominates_irrefl (n : Nat) (a : Individual) : dominates n a a = false := by
  simp [dominates, Scalar.lt_irrefl_false]

theorem dominates_trans {n : Nat} {a b c : Individual} (h1 : dominates n a b = true)
    (h2 : dominates n b c = true) : dominates n a c = true := by
  simp only [dominates, Bool.and_eq_true, List.all_eq_true, List.any_eq_true] at h1 h2 ⊢
  obtain ⟨l1, i, hi, s1⟩ := h1
  obtain ⟨l2, _⟩ := h2
  exact ⟨fun j hj => Scalar.le_trans_true (l1 j hj) (l2 j hj),
    i, hi, Scalar.lt_le_trans_true s1 (l2 i hi)⟩

/-- A non-empty list has an element that no element of the list dominates. -/
theorem exists_nonDominated (n : Nat) (rest : List (Nat × Individual)) (hne : rest ≠ []) :
    ∃ x ∈ rest, nonDominatedIn n rest x = true := by
  induction rest with
  | nil => exact absurd rfl hne
  | cons a tail ih =>
    by_cases ht : tail = []
    · subst ht
      exact ⟨a, by simp, by simp [nonDominatedIn, dominates_irrefl]⟩
    · obtain ⟨m, hm, hmin⟩ := ih ht
      simp only [nonDominatedIn, List.all_eq_true, Bool.not_eq_true'] at hmin
      by_cases ha : dominates n a.2 m.2 = true
      · refine ⟨a, by simp, ?_⟩
        simp only [nonDominatedIn, List.all_cons, Bool.and_eq_true, Bool.not_eq_true',
          List.all_eq_true]
        refine ⟨dominates_irrefl n a.2, ?_⟩
        intro y hy
        by_contra hc
        have hya : dominates n y.2 a.2 = true := by simpa using hc
        have := dominates_trans hya ha
        rw [hmin y hy] at this
        cases this
      · refine ⟨m, by simp [hm], ?_⟩
        simp only [nonDominatedIn, List.all_cons, Bool.and_eq_true, Bool.not_eq_true',
          List.all_eq_true]
        exact ⟨by simpa using ha, hmin⟩

/-- An element that some element of the list dominates is dominated by an element
that no element of the list dominates. -/
theorem exists_nonDominated_dominator (n : Nat) (rest : List (Nat × Individual))
    (x : Nat × Individual) (hx : nonDominatedIn n rest x = false) :
    ∃ y ∈ rest, nonDominatedIn n rest y = true ∧ dominates n y.2 x.2 = true := by
  have hD : rest.filter (fun y => dominates n y.2 x.2) ≠ [] := by
    intro h
    have : nonDominatedIn n rest x = true := by
      simp only [nonDominatedIn, List.all_eq_true, Bool.not_eq_true']
      intro y hy
      by_contra hc
      have hyx : dominates n y.2 x.2 = true := by simpa using hc
      have : y ∈ rest.filter (fun y => dominates n y.2 x.2) := by
        simp [List.mem_filter, hy, hyx]
      rw [h] at this
      cases this
    rw [hx] at this
    cases this
  obtain ⟨m, hm, hmin⟩ := exists_nonDominated n _ hD
  rw [List.mem_filter] at hm
  refine ⟨m, hm.1, ?_, hm.2⟩
  simp only [nonDominatedIn, List.all_eq_true, Bool.not_eq_true'] at hmin ⊢
  intro z hz
  by_contra hc
  have hzm : dominates n z.2 m.2 = true := by simpa using hc
  have hzx := dominates_trans hzm hm.2
  have := hmin z (by simp [List.mem_filter, hz, hzx])
  rw [hzm] at this
  cases this

/-- With enough fuel the fronts hold every individual exactly once. -/
theorem peelFronts_perm (n : Nat) (fuel : Nat) (rest : List (Nat × Individual))
    (h : rest.length ≤ fuel) : List.Perm (peelFronts n fuel rest).flatten rest := by
  induction fuel generalizing rest with
  | zero =>
    have : rest = [] := List.length_eq_zero.mp (by omega)
    subst this
    simp [peelFronts]
  | succ fuel ih =>
    by_cases hr : rest = []
    · subst hr; simp [peelFronts]
    · have he : rest.isEmpty = false := by
        cases rest with
        | nil => exact absurd rfl hr
        | cons a t => rfl
      simp only [peelFronts, he, Bool.false_eq_true, if_false, List.flatten_cons]
      obtain ⟨x, hx, hnd⟩ := exists_nonDominated n rest hr
      have hlt : (rest.filter fun x => !nonDominatedIn n rest x).length < rest.length := by
        apply List.length_filter_lt_length_iff_exists.mpr
        exact ⟨x, hx, by simp [hnd]⟩
      have := ih (rest.filter fun x => !nonDominatedIn n rest x) (by omega)
      exact (List.Perm.append_left _ this).trans (List.filter_append_perm _ rest)

/-- Every individual of a front after the first is dominated by an individual of the
front before. -/
theorem peelFronts_consecutive (n : Nat) (fuel : Nat) (rest : List (Nat × Individual))
    (k : Nat) (F G : List (Nat × Individual))
    (hF : (peelFronts n fuel rest)[k]? = some F)
    (hG : (peelFronts n fuel rest)[k + 1]? = some G) :
    ∀ x ∈ G, ∃ y ∈ F, dominates n y.2 x.2 = true := by
  induction fuel generalizing rest k with
  | zero => simp [peelFronts] at hF
  | succ fuel ih =>
    by_cases he : rest.isEmpty = true
    · simp [peelFronts, he] at hF
    · simp only [peelFronts, he, Bool.false_eq_true, if_false] at hF hG
      cases k with
      | zero =>
        simp only [List.getElem?_cons_zero, Option.some.injEq] at hF
        simp only [Nat.zero_add, List.getElem?_cons_succ] at hG
        subst hF
        cases fuel with
        | zero => simp [peelFronts] at hG
        | succ fuel' =>
          by_cases he2 : (rest.filter fun x => !nonDominatedIn n rest x).isEmpty = true
          · simp [peelFronts, he2] at hG
          · simp only [peelFronts, he2, Bool.false_eq_true, if_false, List.getElem?_cons_zero,
              Option.some.injEq] at hG
            subst hG
            intro x hx
            have hx1 := (List.mem_filter.mp hx).1
            have hx2 := (List.mem_filter.mp hx1).2
            obtain ⟨y, hy, hnd, hd⟩ := exists_nonDominated_dominator n rest x (by simpa using hx2)
            exact ⟨y, List.mem_filter.mpr ⟨hy, hnd⟩, hd⟩
      | succ k' =>
        simp only [List.getElem?_cons_succ] at hF hG
        exact ih _ k' hF hG

/-- No individual of a front dominates an individual of the same front, and no front
is empty. -/
theorem peelFronts_antichain (n : Nat) (fuel : Nat) (rest : List (Nat × Individual))
    (k : Nat) (F : List (Nat × Individual))
    (hF : (peelFronts n fuel rest)[k]? = some F) :
    F ≠ [] ∧ ∀ x ∈ F, ∀ y ∈ F, dominates n y.2 x.2 = false := by
  induction fuel generalizing rest k with
  | zero => simp [peelFronts] at hF
  | succ fuel ih =>
    by_cases he : rest.isEmpty = true
    · simp [peelFronts, he] at hF
    · simp only [peelFronts, he, Bool.false_eq_true, if_false] at hF
      cases k with
      | zero =>
        simp only [List.getElem?_cons_zero, Option.some.injEq] at hF
        subst hF
        refine ⟨?_, ?_⟩
        · have hne : rest ≠ [] := by
            intro h0
            rw [h0] at he
            exact he rfl
          obtain ⟨x, hx, hnd⟩ := exists_nonDominated n rest hne
          intro h0
          have : x ∈ rest.filter (nonDominatedIn n rest) := List.mem_filter.mpr ⟨hx, hnd⟩
          rw [h0] at this
          cases this
        · intro x hx y hy
          have hnd := (List.mem_filter.mp hx).2
          simp only [nonDominatedIn, List.all_eq_true, Bool.not_eq_true'] at hnd
          exact hnd y (List.mem_filter.mp hy).1
      | succ k' =>
        simp only [List.getElem?_cons_succ] at hF
        exact ih _ k' hF

/-- An individual that dominates an individual of front `k` is in an earlier
front. -/
theorem peelFronts_dominator_earlier (n : Nat) (fuel : Nat)
    (rest : List (Nat × Individual)) (k : Nat) (F : List (Nat × Individual))
    (hF : (peelFronts n fuel rest)[k]? = some F) :
    ∀ x ∈ F, ∀ y ∈ rest, dominates n y.2 x.2 = true →
      ∃ j, j < k ∧ ∃ G, (peelFronts n fuel rest)[j]? = some G ∧ y ∈ G := by
  induction fuel generalizing rest k with
  | zero => simp [peelFronts] at hF
  | succ fuel ih =>
    by_cases he : rest.isEmpty = true
    · simp [peelFronts, he] at hF
    · simp only [peelFronts, he, Bool.false_eq_true, if_false] at hF ⊢
      cases k with
      | zero =>
        simp only [List.getElem?_cons_zero, Option.some.injEq] at hF
        subst hF
        intro x hx y hy hd
        have hnd := (List.mem_filter.mp hx).2
        simp only [nonDominatedIn, List.all_eq_true, Bool.not_eq_true'] at hnd
        rw [hnd y hy] at hd
        cases hd
      | succ k' =>
        simp only [List.getElem?_cons_succ] at hF
        intro x hx y hy hd
        by_cases hy0 : nonDominatedIn n rest y = true
        · exact ⟨0, Nat.succ_pos _, _, by simp, List.mem_filter.mpr ⟨hy, hy0⟩⟩
        · have hy1 : y ∈ rest.filter fun x => !nonDominatedIn n rest x :=
            List.mem_filter.mpr ⟨hy, by simpa using hy0⟩
          obtain ⟨j, hj, G, hG, hyG⟩ := ih _ k' hF x hx y hy1 hd
          exact ⟨j + 1, Nat.succ_lt_succ hj, G, by simpa using hG, hyG⟩

/-- C18: the non-dominated sorter partitions every population into fronts (each
individual is in exactly one front, no front is empty) such that front 0 holds
exactly the individuals that no individual of the population dominates, every
individual of front `k + 1` is dominated by an individual of front `k`, no individual
of a front dominates another of the same front, and every individual that dominates
one of front `k` is in an earlier front; `a` dominates `b` iff `a` is no worse in
every objective and strictly better in at least one; for (1,5), (2,3), (3,1), (2,2)
the fronts are the individuals 0, 2, 3 and the individual 1, which (2,2) dominates,
and the chain (3,3), (1,1), (2,2) is sorted into three fronts of one individual. -/
theorem C18_non_dominated_sort_fronts (n : Nat) (pop : List Individual) :
    List.Perm (nonDominatedSort n pop).flatten pop.enum ∧
    (∀ F, (nonDominatedSort n pop)[0]? = some F →
      ∀ x ∈ F, ∀ (j : Nat) (ind : Individual), pop[j]? = some ind →
        dominates n ind x.2 = false) ∧
    (∀ x ∈ pop.enum, (∀ y ∈ pop.enum, dominates n y.2 x.2 = false) →
      ∃ F, (nonDominatedSort n pop)[0]? = some F ∧ x ∈ F) ∧
    (∀ (k : Nat) (F G : List (Nat × Individual)),
      (nonDominatedSort n pop)[k]? = some F → (nonDominatedSort n pop)[k + 1]? = some G →
        ∀ x ∈ G, ∃ y ∈ F, dominates n y.2 x.2 = true) ∧
    (∀ (k : Nat) (F : List (Nat × Individual)), (nonDominatedSort n pop)[k]? = some F →
      F ≠ [] ∧ ∀ x ∈ F, ∀ y ∈ F, dominates n y.2 x.2 = false) ∧
    (∀ (k : Nat) (F : List (Nat × Individual)), (nonDominatedSort n pop)[k]? = some F →
      ∀ x ∈ F, ∀ y ∈ pop.enum, dominates n y.2 x.2 = true →
        ∃ j, j < k ∧ ∃ G, (nonDominatedSort n pop)[j]? = some G ∧ y ∈ G) ∧
    (∀ a b : Individual, dominates n a b = true ↔
      (∀ i < n, Scalar.le (a.objective i) (b.objective i) = true) ∧
      (∃ i < n, Scalar.lt (a.objective i) (b.objective i) = true)) ∧
    (nonDominatedSort 2 Example.paretoPopulation).map (fun F => F.map Prod.fst)
      = [[0, 2, 3], [1]] ∧
    (nonDominatedSort 2 [Example.withFitness [3, 3], Example.withFitness [1, 1],
        Example.withFitness [2, 2]]).map (fun F => F.map Prod.fst)
      = [[1], [2], [0]] := by
  refine ⟨peelFronts_perm n pop.length pop.enum (by simp), ?_, ?_, ?_, ?_, ?_, ?_, by decide,
    by decide⟩
  · intro F hF x hx j ind hj
    cases hp : pop with
    | nil => rw [hp] at hj; simp at hj
    | cons a t =>
      have hlen : pop.length = t.length + 1 := by rw [hp]; rfl
      have he : pop.enum.isEmpty = false := by rw [hp]; rfl
      rw [nonDominatedSort, hlen] at hF
      simp only [peelFronts, he, Bool.false_eq_true, if_false, List.getElem?_cons_zero,
        Option.some.injEq] at hF
      subst hF
      have hnd := (List.mem_filter.mp hx).2
      simp only [nonDominatedIn, List.all_eq_true, Bool.not_eq_true'] at hnd
      exact hnd (j, ind) (List.mem_enum_iff_getElem?.mpr hj)
  · intro x hx hnd
    cases hp : pop with
    | nil => rw [hp] at hx; simp at hx
    | cons a t =>
      have hlen : pop.length = t.length + 1 := by rw [hp]; rfl
      have he : pop.enum.isEmpty = false := by rw [hp]; rfl
      rw [← hp]
      refine ⟨pop.enum.filter (nonDominatedIn n pop.enum), ?_, ?_⟩
      · rw [nonDominatedSort, hlen]
        simp only [peelFronts, he, Bool.false_eq_true, if_false, List.getElem?_cons_zero]
      · refine List.mem_filter.mpr ⟨hx, ?_⟩
        simp only [nonDominatedIn, List.all_eq_true, Bool.not_eq_true']
        exact hnd
  · intro k F G hF hG
    exact peelFronts_consecutive n pop.length pop.enum k F G hF hG
  · intro k F hF
    exact peelFronts_antichain n pop.length pop.enum k F hF
  · intro k F hF
    exact peelFronts_dominator_earlier n pop.length pop.enum k F hF
  · intro a b
    simp [dominates, List.all_eq_true, List.any_eq_true]

/-! ## Validation of the configuration -/

/-- C19, refuted as stated: with `--show-primitives` a configuration whose target
variable is missing (and whose training range 5:5 is empty) makes `main` return 0, not
a failure status. -/
theorem C19_show_primitives_returns_success :
    mainOutcome
      { showPrimitiveSet := true, targetExists := false, train := some ⟨5, 5⟩, test := none,
        rows := 10, inputsExist := true } = Outcome.returned 0 ∧
    (Outcome.returned 0).isFailure = false := by
  decide

/-- C19, amended: for every configuration without `--show-primitives` whose target
variable is missing from the dataset, or whose training range (that of `--train`, or
the default) is empty, reversed or exceeds the dataset's rows, `main` ends with a
failure before `gp.Run`: it returns `EXIT_FAILURE`, or, for an empty range within the
rows, it is ended by the failed `EXPECT`. -/
theorem C19_invalid_configuration_fails (o : Options) (hs : o.showPrimitiveSet = false)
    (h : o.targetExists = false ∨
      o.trainingRange.Start = o.trainingRange.End ∨
      o.trainingRange.Start > o.trainingRange.End ∨
      o.trainingRange.Start ≥ o.rows ∨ o.trainingRange.End > o.rows) :
    (mainOutcome o).isFailure = true ∧
    (∀ trainingRange testRange, mainOutcome o ≠ Outcome.evolution trainingRange testRange) ∧
    (mainOutcome o = Outcome.returned EXIT_FAILURE ∨ mainOutcome o = Outcome.expectFailed) := by
  have key : mainOutcome o = Outcome.returned EXIT_FAILURE ∨
      mainOutcome o = Outcome.expectFailed := by
    simp only [mainOutcome, hs, Bool.false_eq_true, if_false]
    by_cases ht : o.targetExists = true
    · simp only [ht, Bool.not_true, Bool.false_eq_true, if_false]
      by_cases h1 : o.trainingRange.Start ≥ o.rows ∨ o.trainingRange.End > o.rows
      · simp [h1]
      · rw [if_neg h1]
        by_cases h2 : o.trainingRange.Start > o.trainingRange.End
        · simp [h2]
        · rw [if_neg h2]
          by_cases h3 : o.inputsExist = true
          · simp only [h3, Bool.not_true, Bool.false_eq_true, if_false]
            have hz : ¬ (o.trainingRange.Size > 0) := by
              rcases h with h | h | h | h
              · rw [ht] at h; cases h
              · simp [Range.Size, h]
              · exact absurd h h2
              · exact absurd h h1
            simp [hz]
          · simp [h3]
    · simp [ht]
  refine ⟨?_, ?_, key⟩
  · rcases key with k | k <;> rw [k] <;> decide
  · intro a b hab
    rcases key with k | k <;> rw [k] at hab <;> cases hab

/-- C19, amended, at an empty training range 5:5 over 10 rows: the failed `EXPECT` ends
the program. -/
theorem C19_invalid_configuration_fails_witness :
    (mainOutcome
      { showPrimitiveSet := false, targetExists := true, train := some ⟨5, 5⟩, test := none,
        rows := 10, inputsExist := true }).isFailure = true ∧
    (∀ trainingRange testRange,
      mainOutcome
        { showPrimitiveSet := false, targetExists := true, train := some ⟨5, 5⟩, test := none,
          rows := 10, inputsExist := true } ≠ Outcome.evolution trainingRange testRange) ∧
    (mainOutcome
        { showPrimitiveSet := false, targetExists := true, train := some ⟨5, 5⟩, test := none,
          rows := 10, inputsExist := true } = Outcome.returned EXIT_FAILURE ∨
      mainOutcome
        { showPrimitiveSet := false, targetExists := true, train := some ⟨5, 5⟩, test := none,
          rows := 10, inputsExist := true } = Outcome.expectFailed) :=
  C19_invalid_configuration_fails
    { showPrimitiveSet := false, targetExists := true, train := some ⟨5, 5⟩, test := none,
      rows := 10, inputsExist := true } rfl (Or.inr (Or.inl rfl))

/-! ## The length of the estimated sequence -/

/-- The estimated sequence has `trainingRange.Size()` elements for a buffer that is not
larger than the training range, when the interpreter keeps the length of the buffer
it fills. -/
theorem computeFitness_estimated_length (e : Evaluator) (tree : Tree)
    (targetValues : Span) (trainingRange : Range) (buf : List Scalar)
    (hkeep : ∀ t r b, (e.interpreter_.Evaluate t r b).length = b.length)
    (hbuf : buf.length ≤ trainingRange.Size) :
    (computeFitness e tree targetValues trainingRange buf).estimated.length
      = trainingRange.Size := by
  simp only [computeFitness]
  by_cases hlt : buf.length < trainingRange.Size
  · cases e.scaling_ <;> simp [hlt, hkeep]
  · have : buf.length = trainingRange.Size := by omega
    cases e.scaling_ <;> simp [hlt, hkeep, this]

/-- C20, evaluated on the code: with a training range of 2 rows, an empty buffer and a
buffer of 2 elements give an estimated sequence of 2 elements, but for a buffer of 3
elements the sequence passed to the fit and to the metric has 3 elements, one more
than the target slice; its last element is the stale content of the buffer, which the
fit pairs with the row of the target column after the slice. -/
theorem C20_larger_buffer_is_passed_whole :
    Example.evaluatorInPlace.base.problem_.TrainingRange.Size = 2 ∧
    Example.evaluatorInPlace.targetValues.size = 2 ∧
    Example.evaluatorInPlace.targetValues.elements = [Scalar.finite 1, Scalar.finite 2] ∧
    (computeFitness Example.evaluatorInPlace Example.tree Example.evaluatorInPlace.targetValues
      Example.evaluatorInPlace.base.problem_.TrainingRange []).estimated
      = [Scalar.finite 1, Scalar.finite 1] ∧
    (computeFitness Example.evaluatorInPlace Example.tree Example.evaluatorInPlace.targetValues
      Example.evaluatorInPlace.base.problem_.TrainingRange
      [Scalar.finite 8, Scalar.finite 8]).estimated
      = [Scalar.finite 1, Scalar.finite 1] ∧
    (computeFitness Example.evaluatorInPlace Example.tree Example.evaluatorInPlace.targetValues
      Example.evaluatorInPlace.base.problem_.TrainingRange
      [Scalar.finite 8, Scalar.finite 8, Scalar.finite 9]).estimated
      = [Scalar.finite 1, Scalar.finite 1, Scalar.finite 9] ∧
    pairRows [Scalar.finite 1, Scalar.finite 1, Scalar.finite 9]
      Example.evaluatorInPlace.targetValues.data
      = [(Scalar.finite 1, Scalar.finite 1), (Scalar.finite 1, Scalar.finite 2),
          (Scalar.finite 9, Scalar.finite 3)] := by
  decide

/-! ## A call without local optimization -/

/-- C21: for every call of `Evaluator::operator()` with 0 local-optimization
iterations the optimizer is not run: the individual and so the coefficients of its
tree are as before the call, `JacobianEvaluations` is unchanged, `ResidualEvaluations`
and `CallCount` are each increased by 1 (in `unsigned long` arithmetic, and as plain
sums for a call that stays in the range of the counters), and the call gives the same
fitness, buffer and counters whatever the solvers behind the optimizer are. -/
theorem C21_no_optimization_without_iterations (e : Evaluator) (rng : RandomGenerator)
    (ind : Individual) (buf : List Scalar) (h : e.base.LocalOptimizationIterations = 0) :
    (e.call rng ind buf).ind = ind ∧
    (e.call rng ind buf).ind.Genotype.GetCoefficients = ind.Genotype.GetCoefficients ∧
    (e.call rng ind buf).self.base.JacobianEvaluations = e.base.JacobianEvaluations ∧
    (e.call rng ind buf).self.base.ResidualEvaluations
      = wrapULong (e.base.ResidualEvaluations + 1) ∧
    (e.call rng ind buf).self.base.CallCount = wrapULong (e.base.CallCount + 1) ∧
    (e.inRange ind = true →
      (e.call rng ind buf).self.base.ResidualEvaluations = e.base.ResidualEvaluations + 1 ∧
      (e.call rng ind buf).self.base.CallCount = e.base.CallCount + 1) ∧
    (∀ w : Collaborators, w.Evaluate = e.interpreter_.Evaluate →
      w.toScalar = e.interpreter_.toScalar → w.ScalarMax = e.interpreter_.ScalarMax →
      (Evaluator.call { e with interpreter_ := w } rng ind buf).fit = (e.call rng ind buf).fit ∧
      (Evaluator.call { e with interpreter_ := w } rng ind buf).ind = (e.call rng ind buf).ind ∧
      (Evaluator.call { e with interpreter_ := w } rng ind buf).buf = (e.call rng ind buf).buf ∧
      (Evaluator.call { e with interpreter_ := w } rng ind buf).self.base
        = (e.call rng ind buf).self.base) := by
  have hlo : ∀ (e1 : Evaluator), e1.base.LocalOptimizationIterations = 0 →
      ∀ c g t r, localOptimization e1 c g t r
        = (g, e1.base.ResidualEvaluations, e1.base.JacobianEvaluations) := by
    intro e1 h1 c g t r
    simp [localOptimization, h1]
  refine ⟨?_, ?_, ?_, ?_, ?_, ?_, ?_⟩
  · simp [Evaluator.call, hlo e h]
  · simp [Evaluator.call, hlo e h]
  · simp [Evaluator.call, hlo e h]
  · simp [Evaluator.call, hlo e h]
  · simp [Evaluator.call]
  · intro hr
    obtain ⟨h1, h2, _⟩ := e.call_counters_of_inRange rng ind buf hr
    simp only [Evaluator.addedSummary, h, lt_irrefl, if_false, OptimizerSummary.zero] at h2
    exact ⟨by simpa using h2, h1⟩
  · intro w hE hS hM
    have hw : (({ e with interpreter_ := w } : Evaluator)).base.LocalOptimizationIterations = 0 := h
    simp [Evaluator.call, hlo e h, hlo _ hw, computeFitness, Evaluator.targetValues, hE, hS, hM]

/-- C21 at the example evaluator without local optimization, new, called for a tree
with the coefficient 1. -/
theorem C21_no_optimization_without_iterations_witness :
    (Example.evaluatorInPlace.call 0 Example.individual []).ind.Genotype.GetCoefficients
      = [Scalar.finite 1] ∧
    (Example.evaluatorInPlace.call 0 Example.individual []).self.base.JacobianEvaluations = 0 ∧
    (Example.evaluatorInPlace.call 0 Example.individual []).self.base.ResidualEvaluations = 1 ∧
    (Example.evaluatorInPlace.call 0 Example.individual []).self.base.CallCount = 1 := by
  obtain ⟨_, h2, h3, _, _, h6, _⟩ := C21_no_optimization_without_iterations
    Example.evaluatorInPlace 0 Example.individual [] (by decide)
  obtain ⟨h7, h8⟩ := h6 (by decide)
  exact ⟨h2, h3, h7, h8⟩

/-! ## The fit keeps the mean of the target -/

theorem pairRows_take (x y : List Scalar) : pairRows x (y.take x.length) = pairRows x y := by
  induction x generalizing y with
  | nil => simp [pairRows]
  | cons a rest ih =>
    cases y with
    | nil => simp [pairRows]
    | cons b ys =>
      simp only [List.length_cons, List.take_succ_cons, pairRows]
      rw [ih]

/-- The fit reads the target span's memory up to the length of `estimated`: for a
target span with as many elements as `estimated`, these are the span's elements. -/
theorem FitLeastSquares_of_elements (x : List Scalar) (t : Span) (ys : List Scalar)
    (h : t.elements = ys) (hl : x.length = ys.length) :
    FitLeastSquares x t = FitLeastSquares x (Span.ofList ys) := by
  have hb : ∀ y : List Scalar,
      bivariateAccumulate x (y.take x.length) = bivariateAccumulate x y := by
    intro y
    simp only [bivariateAccumulate, pairRows_take]
  have hlen : (t.data.take t.size).length = x.length := by
    rw [← Span.elements, h, hl]
  have ht : t.data.take x.length = ys := by
    rw [← h, Span.elements]
    rw [List.length_take] at hlen
    apply List.take_eq_take.mpr
    omega
  simp only [FitLeastSquares, FitLeastSquaresImpl, Span.ofList]
  rw [← hb t.data, ht]

theorem fitQ_mean (xs ys : List ℚ) :
    (fitQ xs ys).1 * meanQ xs + (fitQ xs ys).2 = meanQ ys := by
  simp only [fitQ]
  ring

theorem scaleBy_finiteScalars (a b : ℚ) (xs : List ℚ) :
    scaleBy (Scalar.finite a, Scalar.finite b) (finiteScalars xs)
      = finiteScalars (affineQ a b xs) := by
  simp [scaleBy, finiteScalars, affineQ, Scalar.add, Scalar.mul]

/-- C22: for equally long, non-empty sequences of finite values `estimated` and
`target`, the pair `(a, b)` returned by `FitLeastSquares` satisfies
`a * mean(estimated) + b = mean(target)` in exact arithmetic, with `a = 1` when the
variance of `estimated` is zero; the scaled sequence `a * estimated + b`, which is the
one `Evaluator::operator()` hands to the metric when linear scaling is enabled, has the
mean of `target`. -/
theorem C22_scaled_predictions_have_target_mean (xs ys : List ℚ)
    (hlen : xs.length = ys.length) (hne : xs ≠ []) :
    FitLeastSquares (finiteScalars xs) (Span.ofList (finiteScalars ys))
      = (Scalar.finite (fitQ xs ys).1, Scalar.finite (fitQ xs ys).2) ∧
    (fitQ xs ys).1 * meanQ xs + (fitQ xs ys).2 = meanQ ys ∧
    (varianceQ xs = 0 → (fitQ xs ys).1 = 1) ∧
    scaleBy (FitLeastSquares (finiteScalars xs) (Span.ofList (finiteScalars ys))) (finiteScalars xs)
      = finiteScalars (affineQ (fitQ xs ys).1 (fitQ xs ys).2 xs) ∧
    meanQ (affineQ (fitQ xs ys).1 (fitQ xs ys).2 xs) = meanQ ys ∧
    (∀ (e : Evaluator) (tree : Tree) (buf : List Scalar), e.scaling_ = true →
      e.evaluated tree buf = finiteScalars xs → e.targetValues.elements = finiteScalars ys →
      (computeFitness e tree e.targetValues e.base.problem_.TrainingRange buf).estimated
        = finiteScalars (affineQ (fitQ xs ys).1 (fitQ xs ys).2 xs)) := by
  have hfit : FitLeastSquares (finiteScalars xs) (Span.ofList (finiteScalars ys))
      = (Scalar.finite (fitQ xs ys).1, Scalar.finite (fitQ xs ys).2) := by
    rw [FitLeastSquares, FitLeastSquaresImpl_finiteScalars xs ys hlen hne]
  have hscale : scaleBy (FitLeastSquares (finiteScalars xs) (Span.ofList (finiteScalars ys)))
      (finiteScalars xs) = finiteScalars (affineQ (fitQ xs ys).1 (fitQ xs ys).2 xs) := by
    rw [hfit, scaleBy_finiteScalars]
  refine ⟨hfit, fitQ_mean xs ys, ?_, hscale, ?_, ?_⟩
  · intro hv
    simp [fitQ, hv]
  · rw [meanQ_affineQ _ _ _ hne, fitQ_mean]
  · intro e tree buf hs hp ht
    have hc : (computeFitness e tree e.targetValues e.base.problem_.TrainingRange buf).estimated
        = scaleBy (FitLeastSquares (e.evaluated tree buf) e.targetValues)
            (e.evaluated tree buf) := by
      simp only [computeFitness, Evaluator.evaluated, scaleBy, FitLeastSquares,
        decide_eq_true_eq, hs, if_true]
    rw [hc, hp, FitLeastSquares_of_elements _ _ _ ht (by simp [finiteScalars, hlen]), hscale]

/-- C22 at the constant sequence `estimated = (2, 2)` and `target = (1, 5)`: the
variance is zero, the fit is `(1, 1)` and the scaled sequence `(3, 3)` has the mean 3
of the target. -/
theorem C22_scaled_predictions_have_target_mean_witness :
    FitLeastSquares (finiteScalars [2, 2]) (Span.ofList (finiteScalars [1, 5]))
      = (Scalar.finite 1, Scalar.finite 1) ∧
    scaleBy (FitLeastSquares (finiteScalars [2, 2]) (Span.ofList (finiteScalars [1, 5])))
      (finiteScalars [2, 2]) = finiteScalars [3, 3] ∧
    meanQ [3, 3] = meanQ [1, 5] := by
  obtain ⟨h1, _, _, h4, h5, _⟩ :=
    C22_scaled_predictions_have_target_mean [2, 2] [1, 5] rfl (by simp)
  have hf : fitQ [2, 2] [1, 5] = (1, 1) := by
    norm_num [fitQ, meanQ, varianceQ, covarianceQ]
  rw [hf] at h1 h4 h5
  have ha : affineQ 1 1 [2, 2] = [3, 3] := by norm_num [affineQ]
  rw [ha] at h4 h5
  exact ⟨h1, h4, h5⟩

/-! ## The inferred test range -/

/-- C23, refuted as stated: over 10 rows with the training range 0:10 and no test
range given, validation passes and the program goes on to the evolution with the
inferred test range `[0, 1)`, whose row 0 is also a row of the training range. -/
theorem C23_whole_dataset_training_overlaps_test :
    Options.test
      { showPrimitiveSet := false, targetExists := true, train := some ⟨0, 10⟩, test := none,
        rows := 10, inputsExist := true } = none ∧
    Options.trainingRange
      { showPrimitiveSet := false, targetExists := true, train := some ⟨0, 10⟩, test := none,
        rows := 10, inputsExist := true } = ⟨0, 10⟩ ∧
    Options.testRange
      { showPrimitiveSet := false, targetExists := true, train := some ⟨0, 10⟩, test := none,
        rows := 10, inputsExist := true } = ⟨0, 1⟩ ∧
    Range.contains ⟨0, 1⟩ 0 = true ∧ Range.contains ⟨0, 10⟩ 0 = true ∧
    mainOutcome
      { showPrimitiveSet := false, targetExists := true, train := some ⟨0, 10⟩, test := none,
        rows := 10, inputsExist := true } = Outcome.evolution ⟨0, 10⟩ ⟨0, 1⟩ := by
  decide

/-- C23, amended: for every dataset with at least one row and every training range
that passes validation (start < rows and end <= rows; that start <= end is not
needed), the test range inferred when none is given is `[0, start)` if start > 0,
otherwise `[end, rows)` if end < rows, otherwise `[0, 1)`; it is non-empty and lies
within `[0, rows]`; it has no row in common with the training range unless the
training range is the whole `[0, rows)`, and then its row 0 is a row of the training
range. -/
theorem C23_inferred_test_range (o : Options) (htest : o.test = none) (hrows : 1 ≤ o.rows)
    (hs : o.trainingRange.Start < o.rows) (he : o.trainingRange.End ≤ o.rows) :
    o.testRange
      = (if 0 < o.trainingRange.Start then ⟨0, o.trainingRange.Start⟩
        else if o.trainingRange.End < o.rows then ⟨o.trainingRange.End, o.rows⟩
        else ⟨0, 1⟩) ∧
    o.testRange.Start < o.testRange.End ∧
    o.testRange.End ≤ o.rows ∧
    (¬ (o.trainingRange.Start = 0 ∧ o.trainingRange.End = o.rows) →
      ∀ i, ¬ (o.testRange.contains i = true ∧ o.trainingRange.contains i = true)) ∧
    (o.trainingRange.Start = 0 ∧ o.trainingRange.End = o.rows →
      o.testRange = ⟨0, 1⟩ ∧ o.testRange.contains 0 = true ∧
        o.trainingRange.contains 0 = true) := by
  have hT : o.testRange
      = (if 0 < o.trainingRange.Start then ⟨0, o.trainingRange.Start⟩
        else if o.trainingRange.End < o.rows then ⟨o.trainingRange.End, o.rows⟩
        else ⟨0, 1⟩) := by
    simp only [Options.testRange, htest, gt_iff_lt]
  refine ⟨hT, ?_, ?_, ?_, ?_⟩
  · rw [hT]
    by_cases h1 : 0 < o.trainingRange.Start
    · simp [h1]
    · by_cases h2 : o.trainingRange.End < o.rows
      · simp [h1, h2]
      · simp [h1, h2]
  · rw [hT]
    by_cases h1 : 0 < o.trainingRange.Start
    · simp only [h1, if_true]; omega
    · by_cases h2 : o.trainingRange.End < o.rows
      · simp [h1, h2]
      · simp only [h1, h2, if_false]; omega
  · intro hn i
    rw [hT]
    simp only [Range.contains, Bool.and_eq_true, decide_eq_true_eq]
    by_cases h1 : 0 < o.trainingRange.Start
    · simp only [h1, if_true]; omega
    · by_cases h2 : o.trainingRange.End < o.rows
      · simp only [h1, h2, if_false, if_true]; omega
      · exfalso; omega
  · intro hw
    have h1 : ¬ 0 < o.trainingRange.Start := by omega
    have h2 : ¬ o.trainingRange.End < o.rows := by omega
    have h3 : o.testRange = ⟨0, 1⟩ := by rw [hT]; simp only [h1, h2, if_false]
    refine ⟨h3, ?_, ?_⟩
    · rw [h3]; decide
    · simp only [Range.contains, Bool.and_eq_true, decide_eq_true_eq]; omega

/-- C23, amended, over 9 rows with the default training range `[0, 6)`: the inferred
test range is `[6, 9)`, which has no row of the training range. -/
theorem C23_inferred_test_range_witness :
    Options.testRange
      { showPrimitiveSet := false, targetExists := true, train := none, test := none,
        rows := 9, inputsExist := true } = ⟨6, 9⟩ ∧
    ∀ i, ¬ (Range.contains ⟨6, 9⟩ i = true ∧ Range.contains ⟨0, 6⟩ i = true) := by
  obtain ⟨h1, _, _, h4, _⟩ := C23_inferred_test_range
    { showPrimitiveSet := false, targetExists := true, train := none, test := none,
      rows := 9, inputsExist := true } rfl (by decide) (by decide) (by decide)
  exact ⟨h1, h4 (by decide)⟩


end Operon
